import Mathlib

/-!
# ufatool.go: Upfront Agreement chaincode

A shallow embedding of `src/ufatool.go` and the properties of it that the
specification states.

* A Go string or byte slice is a sequence of bytes. It is a Lean string with one
  character per byte, the character whose code is the byte: ASCII text is
  itself, and the Lean literal `"\xff"` is the one-byte string 0xFF. A `nil`
  byte slice is `none`.
* The world state behind `shim.ChaincodeStubInterface` is a function from keys
  to optional values: `GetState` of an unset key yields `nil` bytes and a `nil`
  error, `PutState` overwrites one key.
* `float64` values are `F64`: NaN, the two infinities, and the finite values as
  rationals, with IEEE 754 comparison and round-to-nearest-even arithmetic.
* `encoding/json` and `strconv.ParseFloat` are not code of the repository: every
  function of the program takes them as a `GoLib` argument.  `goLib` is a
  runnable instance on which the program is evaluated at concrete inputs.
* A theorem that rests on a fact of `encoding/json` takes it as a hypothesis
  (`JsonLaws`, `ListLaws`, `MapLaws`); each of these facts is proved for `goLib`.
-/

namespace Ufatool

/-! ## float64 -/

/-- The values of a Go float64. The two zeros are identified: the program only
compares and adds, multiplies and divides by 100, which never tells them apart. -/
inductive F64 where
  | nan
  | inf (negative : Bool)
  | fin (q : ℚ)
deriving DecidableEq

namespace F64

/-- Nearest natural number to n / d, ties to the even one. -/
def rne (n d : Nat) : Nat :=
  let q := n / d
  let r := n % d
  if 2 * r < d then q else if d < 2 * r then q + 1 else if q % 2 = 0 then q else q + 1

/-- The integer k with 2^k ≤ n < 2^(k+1) for a positive n, found in at most
`fuel` halvings; 0 for n < 2. -/
def log2 (fuel n : Nat) : Nat :=
  match fuel with
  | 0 => 0
  | f + 1 => if n < 2 then 0 else log2 f (n / 2) + 1

/-- The integer e with 2^e ≤ n / d < 2^(e+1), for positive n and d. -/
def binade (n d : Nat) : Int :=
  let e : Int := (log2 n n : Int) - (log2 d d : Int)
  if 0 ≤ e then (if d * 2 ^ e.toNat ≤ n then e else e - 1)
  else (if d ≤ n * 2 ^ (-e).toNat then e else e - 1)

/-- Rounding of an exact result to binary64: 53 significant bits, exponent at
least -1022 (gradual underflow), nearest value with ties to even, overflow to
an infinity. -/
def round (x : ℚ) : F64 :=
  if x = 0 then fin 0 else
  let n := x.num.natAbs
  let d := x.den
  let s : Int := max (binade n d) (-1022) - 52
  let m : Nat := if 0 ≤ s then rne n (d * 2 ^ s.toNat) else rne (n * 2 ^ (-s).toNat) d
  let mag : ℚ := if 0 ≤ s then ((m * 2 ^ s.toNat : Nat) : ℚ) else (m : ℚ) / ((2 ^ (-s).toNat : Nat) : ℚ)
  if ((2 ^ 1024 : Nat) : ℚ) ≤ mag then inf (decide (x < 0))
  else fin (if x < 0 then -mag else mag)

/-- Go `a + b` on float64. -/
def add : F64 → F64 → F64
  | fin a, fin b => round (a + b)
  | fin _, inf s => inf s
  | inf s, fin _ => inf s
  | inf s, inf t => if s = t then inf s else nan
  | _, _ => nan

/-- Go `a * b` on float64. -/
def mul : F64 → F64 → F64
  | fin a, fin b => round (a * b)
  | fin a, inf s => if a = 0 then nan else inf (decide (a < 0) != s)
  | inf s, fin a => if a = 0 then nan else inf (decide (a < 0) != s)
  | inf s, inf t => inf (s != t)
  | _, _ => nan

/-- Go `a / 100.0` on float64. -/
def div100 : F64 → F64
  | fin a => round (a / 100)
  | inf s => inf s
  | nan => nan

/-- Go `a < b` on float64: false as soon as one side is NaN. -/
def lt : F64 → F64 → Bool
  | fin a, fin b => decide (a < b)
  | fin _, inf s => !s
  | inf s, fin _ => s
  | inf s, inf t => s && !t
  | _, _ => false

/-- Go `a <= b` on float64: false as soon as one side is NaN. -/
def le : F64 → F64 → Bool
  | fin a, fin b => decide (a ≤ b)
  | fin _, inf s => !s
  | inf s, fin _ => s
  | inf s, inf t => s || !t
  | _, _ => false

/-- Go `a > b` on float64. -/
def gt (a b : F64) : Bool := lt b a

/-- Go `a != b` on float64: true as soon as one side is NaN. -/
def ne : F64 → F64 → Bool
  | fin a, fin b => decide (a ≠ b)
  | inf s, inf t => s != t
  | _, _ => true

end F64

/-! ## Go maps, the standard library, the world state -/

/-- A non-nil `map[string]string`: a finite mapping with distinct keys. -/
abbrev Rec := AList (fun _ : String => String)

/-- A Go value of type `map[string]string`; `none` is the nil map. -/
abbrev GoMap := Option Rec

/-- Go `m[key]` on a `map[string]string`: the empty string when the key is not
there, also on the nil map. -/
def GoMap.index (m : GoMap) (key : String) : String :=
  match m with
  | none => ""
  | some r => (r.lookup key).getD ""

/-- The standard-library functions the program calls.

* `unmarshalMap b`: the value `json.Unmarshal(b, &m)` leaves in a nil
  `m map[string]string` (the program never looks at the error of this call);
* `unmarshalList b`: `json.Unmarshal(b, &l)` for a nil `l []string`: `none` when
  it returns an error, else the slice left in `l` (a nil slice is the empty list);
* `unmarshalMaps b`: the slice `json.Unmarshal(b, &l)` leaves in a nil
  `l []map[string]string` (the error is never looked at);
* `marshalMap`, `marshalList`, `marshalMaps`: `json.Marshal` at these three types;
* `parseFloat s`: `strconv.ParseFloat(s, 64)`, `none` when it returns an error. -/
structure GoLib where
  unmarshalMap : String → GoMap
  unmarshalList : String → Option (List String)
  unmarshalMaps : String → List GoMap
  marshalMap : GoMap → String
  marshalList : List String → String
  marshalMaps : List GoMap → String
  parseFloat : String → Option F64

/-- The world state: the value of every key, `none` for a key never written. -/
abbrev Store := String → Option String

/-- The call `stub.GetState(key)`: the bytes (nil for an unset key) and whether the
returned error is non-nil, which it is not for a read of the world state. -/
def GetState (stub : Store) (key : String) : Option String × Bool :=
  (stub key, false)

/-- The call `stub.PutState(key, value)`. -/
def PutState (stub : Store) (key value : String) : Store :=
  fun k => if k = key then some value else stub k

/-- The input `json.Unmarshal` reads from a byte slice: a nil slice is an empty input. -/
def input (recBytes : Option String) : String :=
  recBytes.getD ""

/-- The constant `ALL_ELEMENENTS`: key of the master list of UFA numbers. -/
def ALL_ELEMENENTS : String := "ALL_RECS"

/-- The constant `UFA_TRXN_PREFIX`: key prefix of a UFA's transaction history. -/
def UFA_TRXN_PREFIX : String := "UFA_TRXN_HISTORY_"

/-- The constant `UFA_INVOICE_PREFIX`: key prefix of the invoices of a UFA. -/
def UFA_INVOICE_PREFIX : String := "UFA_INVOICE_PREFIX_"

/-! ## The program -/

/-- The method `validateNumber`: the parsed number, or -1 when parsing fails. -/
def validateNumber (L : GoLib) (str : String) : F64 :=
  match L.parseFloat str with
  | some netCharge => netCharge
  | none => F64.fin (-1)

/-- The function `validateNewUFA`: the text collected in `validationMessage`. -/
def validateNewUFA (L : GoLib) (who payload : String) : String :=
  if who = "SELLER" ∨ who = "BUYER" then
    let ufaDetails := L.unmarshalMap payload
    let netChargeStr := ufaDetails.index "netCharge"
    let tolerenceStr := ufaDetails.index "chargTolrence"
    let netCharge := validateNumber L netChargeStr
    let msg1 := if F64.le netCharge (F64.fin 0) then "\nInvalid net charge" else ""
    let tolerence := validateNumber L tolerenceStr
    let msg2 :=
      if F64.le tolerence (F64.fin 0) || F64.gt tolerence (F64.fin 10) then
        "\nTolerence is out of range. Should be between 0 and 10"
      else ""
    msg1 ++ msg2
  else
    "\nUser is not authorized to create a UFA"

/-- The method `updateMasterRecords`: the world state after the call and whether
the returned error is non-nil. -/
def updateMasterRecords (L : GoLib) (stub : Store) (ufaNumber : String) : Store × Bool :=
  let recBytes := (GetState stub ALL_ELEMENENTS).1
  match L.unmarshalList (input recBytes) with
  | none => (stub, true)
  | some recordList =>
    let bytesToStore := L.marshalList (recordList ++ [ufaNumber])
    (PutState stub ALL_ELEMENENTS bytesToStore, false)

/-- The method `appendUFATransactionHistory`: the world state after the call and
whether the returned error is non-nil. -/
def appendUFATransactionHistory (L : GoLib) (stub : Store) (ufanumber payload : String) :
    Store × Bool :=
  let recBytes := (GetState stub (UFA_TRXN_PREFIX ++ ufanumber)).1
  let decoded : Option (List String) :=
    match recBytes with
    | none => some []
    | some b => L.unmarshalList b
  match decoded with
  | none => (stub, true)
  | some recordList =>
    let bytesToStore := L.marshalList (recordList ++ [payload])
    (PutState stub (UFA_TRXN_PREFIX ++ ufanumber) bytesToStore, false)

/-- The method `getAllRecordsList`: the UFA numbers stored, `none` for an error. -/
def getAllRecordsList (L : GoLib) (stub : Store) : Option (List String) :=
  let recBytes := (GetState stub ALL_ELEMENENTS).1
  L.unmarshalList (input recBytes)

/-- The method `createUFA` on `args = [ufanumber, who, payload]`: the world state
after the call and the returned error (`none` for nil); the bytes returned are
always nil. -/
def createUFA (L : GoLib) (stub : Store) (ufanumber who payload : String) :
    Store × Option String :=
  let valMsg := validateNewUFA L who payload
  if valMsg = "" then
    let stub1 := PutState stub ufanumber payload
    let stub2 := (updateMasterRecords L stub1 ufanumber).1
    let stub3 := (appendUFATransactionHistory L stub2 ufanumber payload).1
    (stub3, none)
  else
    (stub, some ("Validation failure: " ++ valMsg))

/-- The method `getAllInvloiceList`: the invoice numbers listed for a UFA, `none`
for an error. -/
def getAllInvloiceList (L : GoLib) (stub : Store) (ufanumber : String) : Option (List String) :=
  let recBytes := (GetState stub (UFA_INVOICE_PREFIX ++ ufanumber)).1
  L.unmarshalList (input recBytes)

/-- The method `getInvoicesForUFA`: the decoded record of every listed invoice. -/
def getInvoicesForUFA (L : GoLib) (stub : Store) (ufanumber : String) : List GoMap :=
  match getAllInvloiceList L stub ufanumber with
  | some recordsList =>
    recordsList.map (fun invoiceNumber => L.unmarshalMap (input (GetState stub invoiceNumber).1))
  | none => []

/-- The method `checkInvoicesRaised`: whether a listed invoice has this billing period. -/
def checkInvoicesRaised (L : GoLib) (stub : Store) (ufaNumber billingPeriod : String) : Bool :=
  let allInvoices := getInvoicesForUFA L stub ufaNumber
  allInvoices.any (fun invoiceDetails => decide (invoiceDetails.index "billingPeriod" = billingPeriod))

/-- The method `validateInvoiceDetails` on `args = [who, payload]`: the text
collected in `validationMessage`. -/
def validateInvoiceDetails (L : GoLib) (stub : Store) (payload : String) : String :=
  let invoiceList := L.unmarshalMaps payload
  if invoiceList.length < 2 then
    "\nInvoice is missing for Customer or Vendor"
  else
    let ufanumber := (invoiceList.getD 0 none).index "ufanumber"
    let (recBytes, err) := GetState stub ufanumber
    if err then
      "\nInvalid UFA provided"
    else
      let ufaDetails := L.unmarshalMap (input recBytes)
      let tolerence := validateNumber L (ufaDetails.index "chargTolrence")
      let netCharge := validateNumber L (ufaDetails.index "netCharge")
      let raisedInvTotal := validateNumber L (ufaDetails.index "raisedInvTotal")
      let maxCharge := F64.add netCharge (F64.div100 (F64.mul netCharge tolerence))
      let invAmt1 := validateNumber L ((invoiceList.getD 0 none).index "invoiceAmt")
      let invAmt2 := validateNumber L ((invoiceList.getD 1 none).index "invoiceAmt")
      let billingPeriod := (invoiceList.getD 0 none).index "billingPeriod"
      if checkInvoicesRaised L stub ufanumber billingPeriod then
        "\nInvoice all already raised for " ++ billingPeriod
      else if F64.ne invAmt1 invAmt2 then
        "\nCustomer and Vendor Invoice Amounts are not same"
      else if F64.lt maxCharge (F64.add invAmt1 raisedInvTotal) then
        "\nTotal invoice amount exceded"
      else
        ""

/-- The entries a `range` over a `map[string]string` visits (none on the nil map). -/
def GoMap.entries (m : GoMap) : List (String × String) :=
  match m with
  | none => []
  | some r => r.entries.map (fun e => (e.1, e.2))

/-- Go `m[key] = value`: `none` is the run-time panic of an assignment to an
entry of the nil map. -/
def GoMap.assign (m : GoMap) (key value : String) : Option GoMap :=
  match m with
  | none => none
  | some r => some (some (r.insert key value))

/-- The method `updateRecord`: the returned string, `none` when the loop panics.
The map is updated in place, one assignment per entry of `fieldsToUpdate`. -/
def updateRecord (L : GoLib) (existingRecord fieldsToUpdate : GoMap) : Option String :=
  match fieldsToUpdate.entries.foldlM (fun m e => GoMap.assign m e.1 e.2) existingRecord with
  | none => none
  | some merged => some (L.marshalMap merged)

/-- The method `updateUFA` on `args = [ufanumber, who, payload]`: the world state
after the call, `none` when the call panics. It returns `nil, nil` otherwise. -/
def updateUFA (L : GoLib) (stub : Store) (ufanumber payload : String) : Option Store :=
  let recBytes := (GetState stub ufanumber).1
  let existingRecMap := L.unmarshalMap (input recBytes)
  let updatedFields := L.unmarshalMap payload
  match updateRecord L existingRecMap updatedFields with
  | none => none
  | some updatedReord =>
    let stub1 := PutState stub ufanumber updatedReord
    some (appendUFATransactionHistory L stub1 ufanumber payload).1

/-- The method `getAllUFA`: the bytes returned, or the error. -/
def getAllUFA (L : GoLib) (stub : Store) : Except String String :=
  match getAllRecordsList L stub with
  | none => .error "Unable to get all the records "
  | some recordsList =>
    let outputRecords :=
      recordsList.map (fun ufanumber => L.unmarshalMap (input (GetState stub ufanumber).1))
    .ok (L.marshalMaps outputRecords)

/-- The method `getUFADetails` on `args = [ufanumber]`: the bytes returned (the
error is always nil). -/
def getUFADetails (L : GoLib) (stub : Store) (ufanumber : String) : String :=
  let recBytes := (GetState stub ufanumber).1
  let outputRecord := L.unmarshalMap (input recBytes)
  L.marshalMap outputRecord

/-- The method `Init`: the world state after the call. -/
def Init (stub : Store) : Store :=
  PutState stub ALL_ELEMENENTS "[]"

/-- The method `Invoke`: the world state after the call, the bytes and the error
it returns, which are both nil (`none`) on every path; the result is `none` when
the call panics (fewer than three arguments for the two functions it dispatches
to, or the panic of `updateUFA`). The results of `createUFA` and `updateUFA` are
discarded. -/
def Invoke (L : GoLib) (stub : Store) (function : String) (args : List String) :
    Option (Store × Option String × Option String) :=
  if function = "createUFA" then
    match args with
    | ufanumber :: who :: payload :: _ =>
      some ((createUFA L stub ufanumber who payload).1, none, none)
    | _ => none
  else if function = "updateUFA" then
    match args with
    | ufanumber :: _ :: payload :: _ =>
      match updateUFA L stub ufanumber payload with
      | some stub1 => some (stub1, none, none)
      | none => none
    | _ => none
  else
    some (stub, none, none)

/-! ## A runnable standard library

`goLib` evaluates the program at concrete inputs. It follows `encoding/json`
on byte strings: `json.Unmarshal` leaves its target untouched for a text that is
not JSON, keeps what it decoded when a value has another type than its target
(a member of an object that is not a string is left the empty string, an
element of an array of objects that is not an object is left a nil map), and
coerces the strings it reads to well-formed UTF-8; `json.Marshal` writes a byte
that starts no UTF-8 encoding as the escape of U+FFFD. The number texts are the
decimal and the special (`NaN`, `Inf`, `Infinity`) texts of
`strconv.ParseFloat`. -/

namespace GoStd

/-- JSON white space. -/
def isSpace (c : Char) : Bool :=
  c = ' ' || c = '\t' || c = '\n' || c = '\r'

/-- Drops leading white space. -/
def skipWs : List Char → List Char
  | [] => []
  | c :: cs => if isSpace c then skipWs cs else c :: cs

/-- A decimal digit. -/
def isDigit (c : Char) : Bool :=
  decide ('0' ≤ c ∧ c ≤ '9')

/-- Value of a hexadecimal digit. -/
def hexVal (c : Char) : Option Nat :=
  if '0' ≤ c ∧ c ≤ '9' then some (c.toNat - 48)
  else if 'a' ≤ c ∧ c ≤ 'f' then some (c.toNat - 87)
  else if 'A' ≤ c ∧ c ≤ 'F' then some (c.toNat - 55)
  else none

/-- Value of four hexadecimal digits. -/
def hex4 (a b c d : Char) : Option Nat :=
  match hexVal a, hexVal b, hexVal c, hexVal d with
  | some x, some y, some z, some w => some (((x * 16 + y) * 16 + z) * 16 + w)
  | _, _, _, _ => none

/-- The character of a one-letter escape. -/
def unescape (c : Char) : Option Char :=
  if c = '"' then some '"'
  else if c = '\\' then some '\\'
  else if c = '/' then some '/'
  else if c = 'b' then some (Char.ofNat 8)
  else if c = 'f' then some (Char.ofNat 12)
  else if c = 'n' then some '\n'
  else if c = 'r' then some '\r'
  else if c = 't' then some '\t'
  else none

/-! ### UTF-8

A byte is the character with its code. `unicode/utf8` is followed: a rune is a
code point other than a surrogate, below U+110000; the bytes of a rune are its
shortest encoding. -/

/-- A Unicode scalar value: what `utf8.ValidRune` accepts. -/
def isScalar (r : Nat) : Bool :=
  r < 0xD800 || (0xE000 ≤ r && r < 0x110000)

/-- The bytes of a scalar value. -/
def encodeScalar (r : Nat) : List Char :=
  if r < 0x80 then [Char.ofNat r]
  else if r < 0x800 then [Char.ofNat (0xC0 + r / 64), Char.ofNat (0x80 + r % 64)]
  else if r < 0x10000 then
    [Char.ofNat (0xE0 + r / 4096), Char.ofNat (0x80 + r / 64 % 64), Char.ofNat (0x80 + r % 64)]
  else
    [Char.ofNat (0xF0 + r / 262144), Char.ofNat (0x80 + r / 4096 % 64),
      Char.ofNat (0x80 + r / 64 % 64), Char.ofNat (0x80 + r % 64)]

/-- The function `utf8.EncodeRune`: the bytes of a rune, those of U+FFFD for a
number that is not a scalar value. -/
def encodeRune (r : Nat) : List Char :=
  if isScalar r then encodeScalar r else encodeScalar 0xFFFD

/-- A continuation byte. -/
def isCont (c : Char) : Bool :=
  decide (0x80 ≤ c.toNat ∧ c.toNat < 0xC0)

/-- The rune of a two-byte encoding, if it is one. -/
def rune2 (b0 b1 : Char) : Option Nat :=
  if 0xC2 ≤ b0.toNat ∧ b0.toNat < 0xE0 ∧ isCont b1 = true then
    some ((b0.toNat - 0xC0) * 64 + (b1.toNat - 0x80))
  else none

/-- The rune of a three-byte encoding, if it is one: not an overlong encoding,
not a surrogate. -/
def rune3 (b0 b1 b2 : Char) : Option Nat :=
  if 0xE0 ≤ b0.toNat ∧ b0.toNat < 0xF0 ∧ isCont b1 = true ∧ isCont b2 = true ∧
      0x800 ≤ (b0.toNat - 0xE0) * 4096 + (b1.toNat - 0x80) * 64 + (b2.toNat - 0x80) ∧
      isScalar ((b0.toNat - 0xE0) * 4096 + (b1.toNat - 0x80) * 64 + (b2.toNat - 0x80)) = true then
    some ((b0.toNat - 0xE0) * 4096 + (b1.toNat - 0x80) * 64 + (b2.toNat - 0x80))
  else none

/-- The rune of a four-byte encoding, if it is one: not an overlong encoding,
below U+110000. -/
def rune4 (b0 b1 b2 b3 : Char) : Option Nat :=
  if 0xF0 ≤ b0.toNat ∧ b0.toNat < 0xF8 ∧ isCont b1 = true ∧ isCont b2 = true ∧
      isCont b3 = true ∧
      0x10000 ≤ (b0.toNat - 0xF0) * 262144 + (b1.toNat - 0x80) * 4096 + (b2.toNat - 0x80) * 64 +
        (b3.toNat - 0x80) ∧
      (b0.toNat - 0xF0) * 262144 + (b1.toNat - 0x80) * 4096 + (b2.toNat - 0x80) * 64 +
        (b3.toNat - 0x80) < 0x110000 then
    some ((b0.toNat - 0xF0) * 262144 + (b1.toNat - 0x80) * 4096 + (b2.toNat - 0x80) * 64 +
      (b3.toNat - 0x80))
  else none

/-- The function `utf8.DecodeRune` at a byte `b0` of 0x80 or more, followed by
`rest`: the rune and the number of bytes of its encoding, or `none` and 1 when
the bytes start no encoding of a rune. -/
def decodeRune (b0 : Char) (rest : List Char) : Option Nat × Nat :=
  match rest with
  | [] => (none, 1)
  | b1 :: rest1 =>
    match rune2 b0 b1 with
    | some r => (some r, 2)
    | none =>
      match rest1 with
      | [] => (none, 1)
      | b2 :: rest2 =>
        match rune3 b0 b1 b2 with
        | some r => (some r, 3)
        | none =>
          match rest2 with
          | [] => (none, 1)
          | b3 :: _ =>
            match rune4 b0 b1 b2 b3 with
            | some r => (some r, 4)
            | none => (none, 1)

/-- The runes of a byte string, read from left to right, after `skip` bytes that
belong to the rune read before: `none` stands for one byte that starts no
encoding of a rune. -/
def decodeFrom : Nat → List Char → List (Option Nat)
  | _, [] => []
  | skip + 1, _ :: rest => decodeFrom skip rest
  | 0, b0 :: rest =>
    if b0.toNat < 0x80 then some b0.toNat :: decodeFrom 0 rest
    else (decodeRune b0 rest).1 :: decodeFrom ((decodeRune b0 rest).2 - 1) rest

/-- The runes of a byte string, read by `utf8.DecodeRune` from left to right. -/
def decodeUtf8 (bs : List Char) : List (Option Nat) :=
  decodeFrom 0 bs

/-- A byte string coerced to well-formed UTF-8, as `encoding/json` does when it
reads a string: each byte that starts no encoding becomes U+FFFD. -/
def coerceUtf8 (bs : List Char) : List Char :=
  (decodeUtf8 bs).flatMap (fun o => encodeRune (o.getD 0xFFFD))

/-! ### Reading JSON -/

/-- Puts a character in front of the string a reader returns. -/
def push (c : Char) : Option (List Char × List Char) → Option (List Char × List Char)
  | some (s, rest) => some (c :: s, rest)
  | none => none

/-- Puts bytes in front of the string a reader returns. -/
def pushAll (cs : List Char) : Option (List Char × List Char) → Option (List Char × List Char)
  | some (s, rest) => some (cs ++ s, rest)
  | none => none

/-- The low surrogate that an escape `\uXXXX` at the start of the input denotes,
if there is one. -/
def lowSurrogate (cs : List Char) : Option Nat :=
  match cs with
  | '\\' :: 'u' :: l1 :: l2 :: l3 :: l4 :: _ =>
    match hex4 l1 l2 l3 l4 with
    | some m => if 0xDC00 ≤ m ∧ m < 0xE000 then some m else none
    | none => none
  | _ => none

/-- Reads a JSON string after its opening quote and after `skip` characters of
an escape already read: its bytes with the escapes replaced (an escaped rune by
its UTF-8 bytes, an escaped high surrogate followed by an escaped low surrogate
by the bytes of the rune of the pair, another escaped surrogate by those of
U+FFFD), and the input after its closing quote. -/
def readFrom : Nat → List Char → Option (List Char × List Char)
  | _, [] => none
  | skip + 1, _ :: cs => readFrom skip cs
  | 0, c :: cs =>
    if c = '"' then some ([], cs)
    else if c = '\\' then
      match cs with
      | [] => none
      | e :: rest =>
        if e = 'u' then
          match rest with
          | h1 :: h2 :: h3 :: h4 :: rest1 =>
            match hex4 h1 h2 h3 h4 with
            | none => none
            | some n =>
              match lowSurrogate rest1 with
              | some m =>
                if 0xD800 ≤ n ∧ n < 0xDC00 then
                  pushAll (encodeRune ((n - 0xD800) * 1024 + (m - 0xDC00) + 0x10000))
                    (readFrom 11 cs)
                else pushAll (encodeRune n) (readFrom 5 cs)
              | none => pushAll (encodeRune n) (readFrom 5 cs)
          | _ => none
        else
          match unescape e with
          | some d => push d (readFrom 1 cs)
          | none => none
    else if c.toNat < 32 then none
    else push c (readFrom 0 cs)

/-- Reads a JSON string after its opening quote. -/
def readString (cs : List Char) : Option (List Char × List Char) :=
  readFrom 0 cs

/-- Reads a string or the text null (which reads as the empty string): the bytes
of the Go string, coerced to well-formed UTF-8. -/
def readStringOrNull : List Char → Option (List Char × List Char)
  | '"' :: cs =>
    match readString cs with
    | some (s, rest) => some (coerceUtf8 s, rest)
    | none => none
  | 'n' :: 'u' :: 'l' :: 'l' :: cs => some ([], cs)
  | _ => none

/-- Drops leading decimal digits. -/
def skipDigits : List Char → List Char
  | [] => []
  | c :: cs => if isDigit c then skipDigits cs else c :: cs

/-- Reads the optional exponent of a number: the input after it. -/
def skipExp (cs : List Char) : Option (List Char) :=
  match cs with
  | e :: rest =>
    if e = 'e' ∨ e = 'E' then
      match (match rest with
        | '+' :: r => r
        | '-' :: r => r
        | r => r) with
      | d :: r1 => if isDigit d then some (skipDigits r1) else none
      | [] => none
    else some cs
  | [] => some []

/-- Reads the optional fraction and exponent of a number: the input after them. -/
def skipFrac (cs : List Char) : Option (List Char) :=
  match cs with
  | '.' :: d :: rest => if isDigit d then skipExp (skipDigits rest) else none
  | '.' :: [] => none
  | _ => skipExp cs

/-- Reads a JSON number: the input after it. -/
def skipNumber (cs : List Char) : Option (List Char) :=
  match (match cs with
    | '-' :: r => r
    | r => r) with
  | d :: rest =>
    if d = '0' then skipFrac rest
    else if isDigit d then skipFrac (skipDigits rest)
    else none
  | [] => none

/-- What the reader `skip` is reading: one value, the elements of an array after
its opening bracket, the members of an object after its opening brace. -/
inductive Mode where
  | value
  | elems
  | members

/-- Reads over JSON text without decoding it: the input after one value (which
starts at the first character), after the closing bracket of an array, after
the closing brace of an object; `none` for a syntax error. -/
def skip : Nat → Mode → List Char → Option (List Char)
  | 0, _, _ => none
  | fuel + 1, Mode.value, cs =>
    match cs with
    | '"' :: rest =>
      match readString rest with
      | some (_, rest1) => some rest1
      | none => none
    | '\x7b' :: rest =>
      match skipWs rest with
      | '\x7d' :: rest1 => some rest1
      | _ => skip fuel Mode.members rest
    | '[' :: rest =>
      match skipWs rest with
      | ']' :: rest1 => some rest1
      | _ => skip fuel Mode.elems rest
    | 't' :: 'r' :: 'u' :: 'e' :: rest => some rest
    | 'f' :: 'a' :: 'l' :: 's' :: 'e' :: rest => some rest
    | 'n' :: 'u' :: 'l' :: 'l' :: rest => some rest
    | _ => skipNumber cs
  | fuel + 1, Mode.elems, cs =>
    match skip fuel Mode.value (skipWs cs) with
    | none => none
    | some rest =>
      match skipWs rest with
      | c :: rest1 =>
        if c = ',' then skip fuel Mode.elems rest1
        else if c = ']' then some rest1
        else none
      | [] => none
  | fuel + 1, Mode.members, cs =>
    match skipWs cs with
    | '"' :: rest =>
      match readString rest with
      | none => none
      | some (_, rest1) =>
        match skipWs rest1 with
        | ':' :: rest2 =>
          match skip fuel Mode.value (skipWs rest2) with
          | none => none
          | some rest3 =>
            match skipWs rest3 with
            | c :: rest4 =>
              if c = ',' then skip fuel Mode.members rest4
              else if c = '\x7d' then some rest4
              else none
            | [] => none
        | _ => none
    | _ => none

/-- Reads the elements of an array of strings up to its closing bracket. -/
def readStrings : Nat → List Char → Option (List String × List Char)
  | 0, _ => none
  | fuel + 1, cs =>
    match readStringOrNull (skipWs cs) with
    | none => none
    | some (s, rest) =>
      match skipWs rest with
      | c :: rest1 =>
        if c = ',' then
          match readStrings fuel rest1 with
          | some (l, rest2) => some (String.mk s :: l, rest2)
          | none => none
        else if c = ']' then some ([String.mk s], rest1)
        else none
      | [] => none

/-- The instance of `unmarshalList`: an error for a text that is not JSON, that
is neither null nor an array, or that has an element that is neither a string
nor null. -/
def unmarshalList (b : String) : Option (List String) :=
  match skipWs b.data with
  | 'n' :: 'u' :: 'l' :: 'l' :: rest => if skipWs rest = [] then some [] else none
  | '[' :: rest =>
    match skipWs rest with
    | ']' :: rest1 => if skipWs rest1 = [] then some [] else none
    | _ =>
      match readStrings b.length rest with
      | some (l, rest1) => if skipWs rest1 = [] then some l else none
      | none => none
  | _ => none

/-- Reads the value of a member of an object into a string: the string, whether
the value is of another type (a number, a boolean, an array, an object: the
string is then left empty and the decoder notes a type error), the input after
the value. The text null leaves the string empty without an error. -/
def readValue (fuel : Nat) (cs : List Char) : Option (List Char × Bool × List Char) :=
  match cs with
  | '"' :: rest =>
    match readString rest with
    | some (s, rest1) => some (coerceUtf8 s, false, rest1)
    | none => none
  | 'n' :: 'u' :: 'l' :: 'l' :: rest => some ([], false, rest)
  | _ =>
    match skip fuel Mode.value cs with
    | some rest => some ([], true, rest)
    | none => none

/-- Reads the members of an object up to its closing brace, into `acc`; `err`
tells whether a type error was noted. -/
def readMembers : Nat → Rec → Bool → List Char → Option (Rec × Bool × List Char)
  | 0, _, _, _ => none
  | fuel + 1, acc, err, cs =>
    match skipWs cs with
    | '"' :: rest =>
      match readString rest with
      | none => none
      | some (k, rest1) =>
        match skipWs rest1 with
        | ':' :: rest2 =>
          match readValue fuel (skipWs rest2) with
          | none => none
          | some (v, e, rest3) =>
            match skipWs rest3 with
            | c :: rest4 =>
              if c = ',' then
                readMembers fuel (acc.insert (String.mk (coerceUtf8 k)) (String.mk v)) (err || e)
                  rest4
              else if c = '\x7d' then
                some (acc.insert (String.mk (coerceUtf8 k)) (String.mk v), err || e, rest4)
              else none
            | [] => none
        | _ => none
    | _ => none

/-- Reads one value into a nil map: the map left (nil for the text null and for
a value that is not an object), whether a type error was noted, the input after
the value. -/
def readMap (fuel : Nat) (cs : List Char) : Option (GoMap × Bool × List Char) :=
  match cs with
  | 'n' :: 'u' :: 'l' :: 'l' :: rest => some (none, false, rest)
  | '\x7b' :: rest =>
    match skipWs rest with
    | '\x7d' :: rest1 => some (some ∅, false, rest1)
    | _ =>
      match readMembers fuel ∅ false rest with
      | some (r, e, rest1) => some (some r, e, rest1)
      | none => none
  | _ =>
    match skip fuel Mode.value cs with
    | some rest => some (none, true, rest)
    | none => none

/-- The instance of `unmarshalMap`: the map is left nil by a text that is not
JSON; a member of an object that is not a string is kept with the empty string. -/
def unmarshalMap (b : String) : GoMap :=
  match readMap (b.length + 1) (skipWs b.data) with
  | some (m, _, rest) => if skipWs rest = [] then m else none
  | none => none

/-- Whether `json.Unmarshal(b, &m)` returns an error, for a `m map[string]string`:
the text is not JSON, or a type error was noted. -/
def unmarshalMapError (b : String) : Bool :=
  match readMap (b.length + 1) (skipWs b.data) with
  | some (_, e, rest) => if skipWs rest = [] then e else true
  | none => true

/-- Reads the elements of an array of objects up to its closing bracket; an
element that is not an object is left a nil map. -/
def readObjects : Nat → List Char → Option (List GoMap × List Char)
  | 0, _ => none
  | fuel + 1, cs =>
    match readMap (fuel + 1) (skipWs cs) with
    | none => none
    | some (m, _, rest) =>
      match skipWs rest with
      | c :: rest1 =>
        if c = ',' then
          match readObjects fuel rest1 with
          | some (l, rest2) => some (m :: l, rest2)
          | none => none
        else if c = ']' then some ([m], rest1)
        else none
      | [] => none

/-- The instance of `unmarshalMaps`: the slice is left nil by a text that is not
JSON or not an array. -/
def unmarshalMaps (b : String) : List GoMap :=
  match skipWs b.data with
  | '[' :: rest =>
    match skipWs rest with
    | ']' :: _ => []
    | _ =>
      match readObjects (b.length + 1) rest with
      | some (l, rest1) => if skipWs rest1 = [] then l else []
      | none => []
  | _ => []

/-! ### Writing JSON -/

/-- A hexadecimal digit, in lower case. -/
def hexDigit (n : Nat) : Char :=
  if n < 10 then Char.ofNat (48 + n) else Char.ofNat (87 + n)

/-- The escape `\uXXXX` of a rune below U+10000. -/
def uEscape (n : Nat) : List Char :=
  ['\\', 'u', hexDigit (n / 4096 % 16), hexDigit (n / 256 % 16), hexDigit (n / 16 % 16),
    hexDigit (n % 16)]

/-- How `json.Marshal` writes one rune of a string, or one byte that starts no
encoding (`none`), which it writes as the escape of U+FFFD. -/
def escapeRune : Option Nat → List Char
  | none => ['\\', 'u', 'f', 'f', 'f', 'd']
  | some r =>
    if r = 0x22 then ['\\', '"']
    else if r = 0x5C then ['\\', '\\']
    else if r = 0x0A then ['\\', 'n']
    else if r = 0x0D then ['\\', 'r']
    else if r = 0x09 then ['\\', 't']
    else if r < 0x20 ∨ r = 0x3C ∨ r = 0x3E ∨ r = 0x26 ∨ r = 0x2028 ∨ r = 0x2029 then uEscape r
    else encodeRune r

/-- How `json.Marshal` writes a string. -/
def quote (s : String) : List Char :=
  '"' :: ((decodeUtf8 s.data).flatMap escapeRune ++ ['"'])

/-- Texts separated by commas. -/
def commaSep : List (List Char) → List Char
  | [] => []
  | [x] => x
  | x :: y :: rest => x ++ ',' :: commaSep (y :: rest)

/-- The instance of `marshalList`. -/
def marshalList (l : List String) : String :=
  String.mk ('[' :: (commaSep (l.map quote) ++ [']']))

/-- Lexicographic order of byte strings. -/
def leChars : List Char → List Char → Bool
  | [], _ => true
  | _ :: _, [] => false
  | a :: as, b :: bs => a.toNat < b.toNat || (a = b && leChars as bs)

/-- Inserts a member into a list of members sorted by key. -/
def insertSorted (e : String × String) : List (String × String) → List (String × String)
  | [] => [e]
  | x :: xs => if leChars e.1.data x.1.data then e :: x :: xs else x :: insertSorted e xs

/-- The members of a map in the order of their keys. -/
def sortedEntries (m : GoMap) : List (String × String) :=
  m.entries.foldr insertSorted []

/-- The text of a map: `null` for the nil map, else its members by sorted key. -/
def mapText (m : GoMap) : List Char :=
  match m with
  | none => ['n', 'u', 'l', 'l']
  | some _ =>
    '\x7b' :: (commaSep ((sortedEntries m).map (fun e => quote e.1 ++ ':' :: quote e.2)) ++ ['\x7d'])

/-- The instance of `marshalMap`. -/
def marshalMap (m : GoMap) : String :=
  String.mk (mapText m)

/-- The instance of `marshalMaps`. -/
def marshalMaps (l : List GoMap) : String :=
  String.mk ('[' :: (commaSep (l.map mapText) ++ [']']))

/-- Reads decimal digits: the number read so far, how many digits were read, the rest. -/
def readDigits : Nat → Nat → List Char → Nat × Nat × List Char
  | acc, cnt, [] => (acc, cnt, [])
  | acc, cnt, c :: cs =>
    if '0' ≤ c ∧ c ≤ '9' then readDigits (acc * 10 + (c.toNat - 48)) (cnt + 1) cs
    else (acc, cnt, c :: cs)

/-- Reads an optional sign: whether it is a minus, and the rest. -/
def readSign : List Char → Bool × List Char
  | '+' :: cs => (false, cs)
  | '-' :: cs => (true, cs)
  | cs => (false, cs)

/-- The exact value of an unsigned decimal text: digits with at most one point and
at least one digit, then optionally e or E, a sign and at least one digit. -/
def readDecimal (cs : List Char) : Option ℚ :=
  let (ip, n1, rest) := readDigits 0 0 cs
  let (mant, n2, rest1) :=
    match rest with
    | '.' :: r => readDigits ip 0 r
    | r => (ip, 0, r)
  if n1 + n2 = 0 then none
  else
    match rest1 with
    | [] => some ((mant : ℚ) / ((10 ^ n2 : Nat) : ℚ))
    | e :: r =>
      if e = 'e' ∨ e = 'E' then
        let (neg, r1) := readSign r
        let (ex, n3, r2) := readDigits 0 0 r1
        if n3 = 0 ∨ r2 ≠ [] then none
        else if neg then some ((mant : ℚ) / ((10 ^ (n2 + ex) : Nat) : ℚ))
        else some ((mant : ℚ) * ((10 ^ ex : Nat) : ℚ) / ((10 ^ n2 : Nat) : ℚ))
      else none

/-- The instance of `parseFloat`: the special values in any letter case, else the
decimal text rounded to the nearest float64, an error when that overflows. -/
def parseFloat (s : String) : Option F64 :=
  let (neg, cs) := readSign s.data
  let low := cs.map Char.toLower
  if s.data.map Char.toLower = ['n', 'a', 'n'] then some F64.nan
  else if low = ['i', 'n', 'f'] ∨ low = ['i', 'n', 'f', 'i', 'n', 'i', 't', 'y'] then
    some (F64.inf neg)
  else
    match readDecimal cs with
    | none => none
    | some q =>
      match F64.round (if neg then -q else q) with
      | F64.fin x => some (F64.fin x)
      | _ => none

end GoStd

/-- The runnable standard library. -/
def goLib : GoLib where
  unmarshalMap := GoStd.unmarshalMap
  unmarshalList := GoStd.unmarshalList
  unmarshalMaps := GoStd.unmarshalMaps
  marshalMap := GoStd.marshalMap
  marshalList := GoStd.marshalList
  marshalMaps := GoStd.marshalMaps
  parseFloat := GoStd.parseFloat

/-! ## Vocabulary of the specification, example data -/

/-- The list a key holds: the key is set and its bytes decode to this list. -/
def HoldsList (L : GoLib) (stub : Store) (key : String) (l : List String) : Prop :=
  ∃ b, stub key = some b ∧ L.unmarshalList b = some l

/-- A payload of an agreement with net charge 1000 and tolerance 5. -/
def exPayload : String :=
  "\x7b\"netCharge\":\"1000\",\"chargTolrence\":\"5\"\x7d"

/-- The world state right after `Init`. -/
def exInit : Store :=
  Init (fun _ => none)

/-- A payload that names the tolerance `chargeTolerance`, as the specification does. -/
def exPayloadSpecKey : String :=
  "\x7b\"netCharge\":\"1000\",\"chargeTolerance\":\"5\"\x7d"

/-- A payload whose net charge and tolerance are the text NaN. -/
def exPayloadNaN : String :=
  "\x7b\"netCharge\":\"NaN\",\"chargTolrence\":\"NaN\"\x7d"

/-- The invoice numbers the Invoice Index of an agreement lists: the list its key
`UFA_INVOICE_PREFIX_` + number decodes to, no number when the key is unset or
does not decode. -/
def invoiceIndex (L : GoLib) (stub : Store) (ufanumber : String) : List String :=
  (L.unmarshalList (input (stub (UFA_INVOICE_PREFIX ++ ufanumber)))).getD []

/-- An invoice record listed in the Invoice Index of the agreement has this
billing period. -/
def PeriodRaised (L : GoLib) (stub : Store) (ufanumber period : String) : Prop :=
  ∃ invoiceNumber ∈ invoiceIndex L stub ufanumber,
    (L.unmarshalMap (input (stub invoiceNumber))).index "billingPeriod" = period

/-- The maximum charge the reconciliation computes from a decoded agreement:
`netCharge + netCharge*tolerence/100.0`. -/
def maxCharge (L : GoLib) (ufaDetails : GoMap) : F64 :=
  F64.add (validateNumber L (ufaDetails.index "netCharge"))
    (F64.div100 (F64.mul (validateNumber L (ufaDetails.index "netCharge"))
      (validateNumber L (ufaDetails.index "chargTolrence"))))

/-- The world state after `Init` and the creation of UFA-1 as SELLER with net
charge 1000 and tolerance 5. -/
def exCreated : Store :=
  (createUFA goLib exInit "UFA-1" "SELLER" exPayload).1

/-- A pair of invoices of 1040 for UFA-1 and the billing period 2024-01. -/
def exInvoices : String :=
  "[\x7b\"ufanumber\":\"UFA-1\",\"invoiceAmt\":\"1040\",\"billingPeriod\":\"2024-01\"\x7d," ++
  "\x7b\"ufanumber\":\"UFA-1\",\"invoiceAmt\":\"1040\",\"billingPeriod\":\"2024-01\"\x7d]"

/-- A second pair of invoices for UFA-1 and the billing period 2024-01, of 10 each. -/
def exInvoicesAgain : String :=
  "[\x7b\"ufanumber\":\"UFA-1\",\"invoiceAmt\":\"10\",\"billingPeriod\":\"2024-01\"\x7d," ++
  "\x7b\"ufanumber\":\"UFA-1\",\"invoiceAmt\":\"10\",\"billingPeriod\":\"2024-01\"\x7d]"

/-- A world state in which UFA-1 has one recorded invoice, INV-1, for 2024-01. -/
def exInvoiced : Store :=
  PutState (PutState exCreated "INV-1" "\x7b\"billingPeriod\":\"2024-01\"\x7d")
    (UFA_INVOICE_PREFIX ++ "UFA-1") "[\"INV-1\"]"

/-- A pair of invoices for UFA-1 and 2024-01 with amounts 5000 and 6000. -/
def exInvoicesUnequal : String :=
  "[\x7b\"ufanumber\":\"UFA-1\",\"invoiceAmt\":\"5000\",\"billingPeriod\":\"2024-01\"\x7d," ++
  "\x7b\"ufanumber\":\"UFA-1\",\"invoiceAmt\":\"6000\",\"billingPeriod\":\"2024-01\"\x7d]"

/-- An agreement with net charge 1000, tolerance 5 and nothing invoiced so far. -/
def exPayloadZero : String :=
  "\x7b\"netCharge\":\"1000\",\"chargTolrence\":\"5\",\"raisedInvTotal\":\"0\"\x7d"

/-- The world state after `Init` and the creation of UFA-3 with `exPayloadZero`. -/
def exCreatedZero : Store :=
  (createUFA goLib exInit "UFA-3" "SELLER" exPayloadZero).1

/-- A pair of invoices of 1050 for UFA-3 and the billing period 2024-01. -/
def exInvoicesCap : String :=
  "[\x7b\"ufanumber\":\"UFA-3\",\"invoiceAmt\":\"1050\",\"billingPeriod\":\"2024-01\"\x7d," ++
  "\x7b\"ufanumber\":\"UFA-3\",\"invoiceAmt\":\"1050\",\"billingPeriod\":\"2024-01\"\x7d]"

/-- An agreement with net charge 10^16, tolerance 1 and 1 invoiced so far. -/
def exPayloadBig : String :=
  "\x7b\"netCharge\":\"10000000000000000\",\"chargTolrence\":\"1\",\"raisedInvTotal\":\"1\"\x7d"

/-- The world state after `Init` and the creation of UFA-2 with `exPayloadBig`. -/
def exCreatedBig : Store :=
  (createUFA goLib exInit "UFA-2" "SELLER" exPayloadBig).1

/-- A pair of invoices of 10100000000000000 for UFA-2 and the billing period 2024-01. -/
def exInvoicesBig : String :=
  "[\x7b\"ufanumber\":\"UFA-2\",\"invoiceAmt\":\"10100000000000000\",\"billingPeriod\":\"2024-01\"\x7d," ++
  "\x7b\"ufanumber\":\"UFA-2\",\"invoiceAmt\":\"10100000000000000\",\"billingPeriod\":\"2024-01\"\x7d]"

/-- An update of UFA-1 that sets the net charge to 2000. -/
def exUpdate : String :=
  "\x7b\"netCharge\":\"2000\"\x7d"

/-- The pair `exInvoicesUnequal` in the other order: amounts 6000 and 5000. -/
def exInvoicesSwapped : String :=
  "[\x7b\"ufanumber\":\"UFA-1\",\"invoiceAmt\":\"6000\",\"billingPeriod\":\"2024-01\"\x7d," ++
  "\x7b\"ufanumber\":\"UFA-1\",\"invoiceAmt\":\"5000\",\"billingPeriod\":\"2024-01\"\x7d]"

/-- A pair of invoices for UFA-1 and 2024-01: one amount is the text abc, the
other entry has no amount. -/
def exInvoicesUnparsable : String :=
  "[\x7b\"ufanumber\":\"UFA-1\",\"invoiceAmt\":\"abc\",\"billingPeriod\":\"2024-01\"\x7d," ++
  "\x7b\"ufanumber\":\"UFA-1\",\"billingPeriod\":\"2024-01\"\x7d]"

/-- The text `part` occurs in the text `msg`. -/
def Contains (msg part : String) : Prop :=
  ∃ pre post, msg = pre ++ part ++ post

/-- The net charge rule is violated: the field `netCharge` fails to parse or
parses to a number that is at most 0. -/
def netChargeViolated (L : GoLib) (payload : String) : Bool :=
  match L.parseFloat ((L.unmarshalMap payload).index "netCharge") with
  | none => true
  | some n => F64.le n (F64.fin 0)

/-- The tolerance rule is violated: the field `chargTolrence` fails to parse or
parses to a number that is at most 0 or greater than 10. -/
def toleranceViolated (L : GoLib) (payload : String) : Bool :=
  match L.parseFloat ((L.unmarshalMap payload).index "chargTolrence") with
  | none => true
  | some x => F64.le x (F64.fin 0) || F64.gt x (F64.fin 10)

/-- The number of lines of a message: each line starts with a line feed. -/
def lineCount (msg : String) : Nat :=
  msg.data.count '\n'

/-- A payload with net charge 1000 and tolerance 10. -/
def exPayloadTen : String :=
  "\x7b\"netCharge\":\"1000\",\"chargTolrence\":\"10\"\x7d"

/-- A payload with net charge 1000 and tolerance 0. -/
def exPayloadTolZero : String :=
  "\x7b\"netCharge\":\"1000\",\"chargTolrence\":\"0\"\x7d"

/-- A payload with net charge 1000 and tolerance 10.5. -/
def exPayloadTolHigh : String :=
  "\x7b\"netCharge\":\"1000\",\"chargTolrence\":\"10.5\"\x7d"

/-- A payload with net charge 1000 and the tolerance text abc. -/
def exPayloadTolText : String :=
  "\x7b\"netCharge\":\"1000\",\"chargTolrence\":\"abc\"\x7d"

/-- A payload with net charge 1000 and the tolerance text NaN. -/
def exPayloadTolNaN : String :=
  "\x7b\"netCharge\":\"1000\",\"chargTolrence\":\"NaN\"\x7d"

/-- The world state after `Init` and the creation of UFA-1 with `exPayloadNaN`. -/
def exCreatedNaN : Store :=
  (createUFA goLib exInit "UFA-1" "SELLER" exPayloadNaN).1

/-- A payload with net charge 0 and tolerance 5. -/
def exPayloadBadCharge : String :=
  "\x7b\"netCharge\":\"0\",\"chargTolrence\":\"5\"\x7d"

/-- A world state whose Master Index lists UFA-1, which is stored, and UFA-404,
which is not. -/
def exTwoListed : Store :=
  PutState exCreated ALL_ELEMENENTS "[\"UFA-1\",\"UFA-404\"]"

/-- The list the Audit Ledger of agreement `M` holds: the list the bytes under
`UFA_TRXN_HISTORY_` + `M` decode to, the empty list when the key is unset, and
`none` when the bytes do not decode to a list. -/
def ledger (L : GoLib) (stub : Store) (M : String) : Option (List String) :=
  match stub (UFA_TRXN_PREFIX ++ M) with
  | none => some []
  | some b => L.unmarshalList b

/-- Well-formed UTF-8, what `utf8.ValidString` accepts: no byte of the string
has to be replaced by U+FFFD, so the coercion leaves the bytes as they are. -/
def Utf8 (s : String) : Prop :=
  GoStd.coerceUtf8 s.data = s.data

instance (s : String) : Decidable (Utf8 s) :=
  inferInstanceAs (Decidable (GoStd.coerceUtf8 s.data = s.data))

/-- A mapping whose keys and values are well-formed UTF-8. -/
def Clean (r : Rec) : Prop :=
  ∀ e ∈ r.entries, Utf8 e.1 ∧ Utf8 e.2

/-- What the development uses of `encoding/json` on a `map[string]string`.

* `decoded_clean`: the keys and values of a map that `json.Unmarshal` leaves are
  well-formed UTF-8 (the decoder replaces every other byte by U+FFFD).
* `clean_round_trip`: the text `json.Marshal` writes for a map of well-formed
  UTF-8 strings decodes to a map with the same keys and values. -/
structure MapLaws (L : GoLib) : Prop where
  decoded_clean : ∀ b r, L.unmarshalMap b = some r → Clean r
  clean_round_trip : ∀ r, Clean r →
    ∃ r1, L.unmarshalMap (L.marshalMap (some r)) = some r1 ∧ ∀ k, r1.lookup k = r.lookup k

/-- What the development uses of `encoding/json` on a `[]string`.

* `decoded_clean`: the strings of a list that `json.Unmarshal` decodes are
  well-formed UTF-8 (the decoder replaces every other byte by U+FFFD).
* `clean_round_trip`: the text `json.Marshal` writes for a list of well-formed
  UTF-8 strings decodes to that list. -/
structure ListLaws (L : GoLib) : Prop where
  decoded_clean : ∀ b l, L.unmarshalList b = some l → ∀ s ∈ l, Utf8 s
  clean_round_trip : ∀ l : List String, (∀ s ∈ l, Utf8 s) →
    L.unmarshalList (L.marshalList l) = some l

/-- Facts of `encoding/json` and `strconv` that the invariant of the Master Index
rests on: the text `[]` decodes to the empty list; a text that decodes to a list
of strings leaves a map nil; the JSON text of a map decodes, if at all, to the
empty list (it is `null` or an object); the empty text is not a number. -/
structure JsonLaws (L : GoLib) : Prop where
  list_empty : L.unmarshalList "[]" = some []
  list_not_map : ∀ b, L.unmarshalList b ≠ none → L.unmarshalMap b = none
  map_text_not_list : ∀ m l, L.unmarshalList (L.marshalMap m) = some l → l = []
  parse_empty : L.parseFloat "" = none

/-- The world states reachable from the state `Init` produces, by calls of
`createUFA` and calls of `updateUFA` that return. -/
inductive Reachable (L : GoLib) : Store → Prop
  | init (stub : Store) : Reachable L (Init stub)
  | create (stub : Store) (N who payload : String) :
      Reachable L stub → Reachable L (createUFA L stub N who payload).1
  | update (stub stub1 : Store) (N payload : String) :
      Reachable L stub → updateUFA L stub N payload = some stub1 → Reachable L stub1

/-- Every agreement number the Master Index lists has a record: a value is stored
under it. -/
def IndexSound (L : GoLib) (stub : Store) : Prop :=
  ∀ l, getAllRecordsList L stub = some l → ∀ n ∈ l, stub n ≠ none

/-- The world states reachable from the state `Init` produces, by calls of
`createUFA` whose agreement number is well-formed UTF-8, and calls of `updateUFA`
that return. -/
inductive ReachableUtf8 (L : GoLib) : Store → Prop
  | init (stub : Store) : ReachableUtf8 L (Init stub)
  | create (stub : Store) (N who payload : String) :
      ReachableUtf8 L stub → Utf8 N → ReachableUtf8 L (createUFA L stub N who payload).1
  | update (stub stub1 : Store) (N payload : String) :
      ReachableUtf8 L stub → updateUFA L stub N payload = some stub1 →
      ReachableUtf8 L stub1

/-- The world state after `Init` and the creation, with a valid payload, of the
agreement whose number is the four bytes of UFA- and the byte 0xFF. -/
def exCreatedByte : Store :=
  (createUFA goLib exInit "UFA-\xff" "SELLER" exPayload).1

/-- A payload with net charge 1000, tolerance 5 and a member that is a boolean. -/
def exPayloadPartial : String :=
  "\x7b\"netCharge\":\"1000\",\"chargTolrence\":\"5\",\"active\":true\x7d"

/-- The world state after `Init` and the creation of UFA-5 with `exPayloadPartial`. -/
def exCreatedPartial : Store :=
  (createUFA goLib exInit "UFA-5" "SELLER" exPayloadPartial).1

/-! ## Properties -/

/-! ### Keys -/

theorem trxn_key_ne_self (n : String) : UFA_TRXN_PREFIX ++ n ≠ n := by
  intro h
  have hlen := congrArg String.length h
  have e1 : UFA_TRXN_PREFIX.length = 17 := by decide
  rw [String.length_append, e1] at hlen
  omega

theorem trxn_key_ne_all (n : String) : UFA_TRXN_PREFIX ++ n ≠ ALL_ELEMENENTS := by
  intro h
  have hlen := congrArg String.length h
  have e1 : UFA_TRXN_PREFIX.length = 17 := by decide
  have e2 : ALL_ELEMENENTS.length = 8 := by decide
  rw [String.length_append, e1, e2] at hlen
  omega

/-! ### createUFA -/

/-- C1. When `validateNewUFA` returns the empty message, the agreement number is
not `ALL_RECS`, the Master Index holds the list `index` and the Audit Ledger of
the agreement is absent (`history = []`) or holds the list `history`, then
`createUFA` returns no error and afterwards the key of the agreement holds the
payload bytes, the Master Index holds the JSON text of `index` with the number
appended last, and the Audit Ledger holds the JSON text of `history` with the
payload appended last. -/
theorem createUFA_writes (L : GoLib) (stub : Store) (N who payload : String)
    (index history : List String)
    (hval : validateNewUFA L who payload = "")
    (hN : N ≠ ALL_ELEMENENTS)
    (hindex : HoldsList L stub ALL_ELEMENENTS index)
    (hhist : (stub (UFA_TRXN_PREFIX ++ N) = none ∧ history = []) ∨
      HoldsList L stub (UFA_TRXN_PREFIX ++ N) history) :
    (createUFA L stub N who payload).2 = none ∧
    (createUFA L stub N who payload).1 N = some payload ∧
    (createUFA L stub N who payload).1 ALL_ELEMENENTS = some (L.marshalList (index ++ [N])) ∧
    (createUFA L stub N who payload).1 (UFA_TRXN_PREFIX ++ N) =
      some (L.marshalList (history ++ [payload])) := by
  obtain ⟨b, hb, hdec⟩ := hindex
  have h1 := trxn_key_ne_self N
  have h2 := trxn_key_ne_all N
  have hm : updateMasterRecords L (PutState stub N payload) N =
      (PutState (PutState stub N payload) ALL_ELEMENENTS (L.marshalList (index ++ [N])), false) := by
    simp [updateMasterRecords, GetState, PutState, Ne.symm hN, hb, input, hdec]
  rcases hhist with ⟨hnone, rfl⟩ | ⟨c, hc, hcdec⟩
  · simp [createUFA, hval, hm, appendUFATransactionHistory, GetState, PutState, h1, h2, hnone,
      hN, Ne.symm hN, Ne.symm h1, Ne.symm h2]
  · simp [createUFA, hval, hm, appendUFATransactionHistory, GetState, PutState, h1, h2, hc, hcdec,
      hN, Ne.symm hN, Ne.symm h1, Ne.symm h2]

/-- C1 at a concrete input: the first agreement created after `Init`. -/
theorem createUFA_writes_witness :
    validateNewUFA goLib "SELLER" exPayload = "" ∧
    "UFA-1" ≠ ALL_ELEMENENTS ∧
    HoldsList goLib exInit ALL_ELEMENENTS [] ∧
    (createUFA goLib exInit "UFA-1" "SELLER" exPayload).2 = none ∧
    (createUFA goLib exInit "UFA-1" "SELLER" exPayload).1 "UFA-1" = some exPayload ∧
    (createUFA goLib exInit "UFA-1" "SELLER" exPayload).1 ALL_ELEMENENTS =
      some (goLib.marshalList ([] ++ ["UFA-1"])) ∧
    (createUFA goLib exInit "UFA-1" "SELLER" exPayload).1 (UFA_TRXN_PREFIX ++ "UFA-1") =
      some (goLib.marshalList ([] ++ [exPayload])) :=
  have hv : validateNewUFA goLib "SELLER" exPayload = "" := by decide!
  have hn : "UFA-1" ≠ ALL_ELEMENENTS := by decide
  have hi : HoldsList goLib exInit ALL_ELEMENENTS [] := ⟨"[]", by decide, by decide⟩
  ⟨hv, hn, hi, createUFA_writes goLib exInit "UFA-1" "SELLER" exPayload [] [] hv hn hi
    (Or.inl ⟨by decide, rfl⟩)⟩

/-- C2. When `validateNewUFA` returns a non-empty message, `createUFA` returns
the error "Validation failure: " followed by that message, and the world state
after the call is the world state before it. -/
theorem createUFA_rejects (L : GoLib) (stub : Store) (N who payload : String)
    (h : validateNewUFA L who payload ≠ "") :
    createUFA L stub N who payload =
      (stub, some ("Validation failure: " ++ validateNewUFA L who payload)) := by
  simp [createUFA, h]

/-- C2 at a concrete input: a caller that is neither SELLER nor BUYER. -/
theorem createUFA_rejects_witness :
    validateNewUFA goLib "ADMIN" exPayload ≠ "" ∧
    createUFA goLib exInit "UFA-1" "ADMIN" exPayload =
      (exInit, some ("Validation failure: " ++ validateNewUFA goLib "ADMIN" exPayload)) :=
  ⟨by decide, createUFA_rejects goLib exInit "UFA-1" "ADMIN" exPayload (by decide)⟩

/-! ### float64 comparisons -/

theorem F64.le_eq_false_of_gt {a b : F64} (h : F64.gt a b = true) : F64.le a b = false := by
  cases a <;> cases b <;> simp_all [F64.gt, F64.lt, F64.le]

theorem F64.gt_eq_false_of_le {a b : F64} (h : F64.le a b = true) : F64.gt a b = false := by
  cases a <;> cases b <;> simp_all [F64.gt, F64.lt, F64.le]
  rename_i s t
  cases s <;> cases t <;> simp_all

/-! ### validateNewUFA -/

/-- C3, as the specification states it, fails: a SELLER payload whose `netCharge`
is 1000 and whose `chargeTolerance` is 5 is rejected, because the validator
reads the tolerance from the field `chargTolrence`. -/
theorem validateNewUFA_rejects_chargeTolerance :
    goLib.parseFloat ((goLib.unmarshalMap exPayloadSpecKey).index "netCharge") =
      some (F64.fin 1000) ∧
    goLib.parseFloat ((goLib.unmarshalMap exPayloadSpecKey).index "chargeTolerance") =
      some (F64.fin 5) ∧
    F64.gt (F64.fin 1000) (F64.fin 0) = true ∧
    F64.gt (F64.fin 5) (F64.fin 0) = true ∧ F64.le (F64.fin 5) (F64.fin 10) = true ∧
    validateNewUFA goLib "SELLER" exPayloadSpecKey =
      "\nTolerence is out of range. Should be between 0 and 10" := by
  decide!

/-- C3, amended. For a role SELLER or BUYER and a payload whose field `netCharge`
parses to a number greater than 0 and whose field `chargTolrence` parses to a
number greater than 0 and at most 10, `validateNewUFA` returns the empty message. -/
theorem validateNewUFA_accepts (L : GoLib) (who payload : String) (n x : F64)
    (hwho : who = "SELLER" ∨ who = "BUYER")
    (hn : L.parseFloat ((L.unmarshalMap payload).index "netCharge") = some n)
    (hnpos : F64.gt n (F64.fin 0) = true)
    (hx : L.parseFloat ((L.unmarshalMap payload).index "chargTolrence") = some x)
    (hxpos : F64.gt x (F64.fin 0) = true)
    (hxle : F64.le x (F64.fin 10) = true) :
    validateNewUFA L who payload = "" := by
  simp [validateNewUFA, hwho, validateNumber, hn, hx, F64.le_eq_false_of_gt hnpos,
    F64.le_eq_false_of_gt hxpos, F64.gt_eq_false_of_le hxle]

/-- C3, amended, at a concrete input: net charge 1000 and `chargTolrence` 5. -/
theorem validateNewUFA_accepts_witness :
    validateNewUFA goLib "SELLER" exPayload = "" :=
  validateNewUFA_accepts goLib "SELLER" exPayload (F64.fin 1000) (F64.fin 5) (Or.inl rfl)
    (by decide!) (by decide) (by decide!) (by decide) (by decide)

/-- C4 fails on the code: for the texts NaN, which `strconv.ParseFloat` reads as
the float64 NaN without an error, both range tests of `validateNewUFA` are false,
so the payload is accepted and `createUFA` stores it, although the numbers the
validator obtained are neither greater than 0 nor at most 10. -/
theorem validateNewUFA_accepts_NaN :
    validateNumber goLib ((goLib.unmarshalMap exPayloadNaN).index "netCharge") = F64.nan ∧
    validateNumber goLib ((goLib.unmarshalMap exPayloadNaN).index "chargTolrence") = F64.nan ∧
    F64.gt F64.nan (F64.fin 0) = false ∧ F64.le F64.nan (F64.fin 10) = false ∧
    validateNewUFA goLib "SELLER" exPayloadNaN = "" ∧
    (createUFA goLib exInit "UFA-1" "SELLER" exPayloadNaN).1 "UFA-1" = some exPayloadNaN := by
  decide!

/-! ### validateInvoiceDetails -/

theorem eq_cons_cons {α : Type} (l : List α) (d : α) (h : 2 ≤ l.length) :
    l = l.getD 0 d :: l.getD 1 d :: l.drop 2 := by
  match l, h with
  | a :: b :: r, _ => simp

theorem checkInvoicesRaised_iff (L : GoLib) (stub : Store) (N p : String) :
    checkInvoicesRaised L stub N p = true ↔ PeriodRaised L stub N p := by
  unfold checkInvoicesRaised getInvoicesForUFA getAllInvloiceList PeriodRaised invoiceIndex GetState
  cases h : L.unmarshalList (input (stub (UFA_INVOICE_PREFIX ++ N))) <;>
    simp [h, List.any_eq_true]

theorem checkInvoicesRaised_eq_false (L : GoLib) (stub : Store) (N p : String)
    (h : ¬ PeriodRaised L stub N p) : checkInvoicesRaised L stub N p = false := by
  rw [Bool.eq_false_iff]
  intro hc
  exact h ((checkInvoicesRaised_iff L stub N p).mp hc)

/-- What `validateInvoiceDetails` returns on a payload of at least two entries, by
the three tests it makes in turn. -/
theorem validateInvoiceDetails_cons (L : GoLib) (stub : Store) (payload : String)
    (a b : GoMap) (rest : List GoMap) (hl : L.unmarshalMaps payload = a :: b :: rest) :
    validateInvoiceDetails L stub payload =
      if checkInvoicesRaised L stub (a.index "ufanumber") (a.index "billingPeriod") then
        "\nInvoice all already raised for " ++ a.index "billingPeriod"
      else if F64.ne (validateNumber L (a.index "invoiceAmt"))
          (validateNumber L (b.index "invoiceAmt")) then
        "\nCustomer and Vendor Invoice Amounts are not same"
      else if F64.lt (maxCharge L (L.unmarshalMap (input (stub (a.index "ufanumber")))))
          (F64.add (validateNumber L (a.index "invoiceAmt"))
            (validateNumber L ((L.unmarshalMap (input (stub (a.index "ufanumber")))).index
              "raisedInvTotal"))) then
        "\nTotal invoice amount exceded"
      else "" := by
  simp [validateInvoiceDetails, hl, GetState, maxCharge]

/-- C5. `validateInvoiceDetails` returns one message, chosen by the first test that
holds, in this order: fewer than 2 entries decode from the payload; else a listed
invoice of the agreement of the first entry has the billing period of the first
entry; else the amounts of the first two entries differ; else the maximum charge
is less than the first amount plus the total raised; else the empty message. Only
the first two entries `a` and `b` of the decoded payload are looked at. -/
theorem validateInvoiceDetails_order (L : GoLib) (stub : Store) (payload : String) :
    ((L.unmarshalMaps payload).length < 2 →
      validateInvoiceDetails L stub payload = "\nInvoice is missing for Customer or Vendor") ∧
    (∀ a b rest, L.unmarshalMaps payload = a :: b :: rest →
      (PeriodRaised L stub (a.index "ufanumber") (a.index "billingPeriod") →
        validateInvoiceDetails L stub payload =
          "\nInvoice all already raised for " ++ a.index "billingPeriod") ∧
      (¬ PeriodRaised L stub (a.index "ufanumber") (a.index "billingPeriod") →
        F64.ne (validateNumber L (a.index "invoiceAmt")) (validateNumber L (b.index "invoiceAmt"))
          = true →
        validateInvoiceDetails L stub payload =
          "\nCustomer and Vendor Invoice Amounts are not same") ∧
      (¬ PeriodRaised L stub (a.index "ufanumber") (a.index "billingPeriod") →
        F64.ne (validateNumber L (a.index "invoiceAmt")) (validateNumber L (b.index "invoiceAmt"))
          = false →
        F64.lt (maxCharge L (L.unmarshalMap (input (stub (a.index "ufanumber")))))
          (F64.add (validateNumber L (a.index "invoiceAmt"))
            (validateNumber L ((L.unmarshalMap (input (stub (a.index "ufanumber")))).index
              "raisedInvTotal"))) = true →
        validateInvoiceDetails L stub payload = "\nTotal invoice amount exceded") ∧
      (¬ PeriodRaised L stub (a.index "ufanumber") (a.index "billingPeriod") →
        F64.ne (validateNumber L (a.index "invoiceAmt")) (validateNumber L (b.index "invoiceAmt"))
          = false →
        F64.lt (maxCharge L (L.unmarshalMap (input (stub (a.index "ufanumber")))))
          (F64.add (validateNumber L (a.index "invoiceAmt"))
            (validateNumber L ((L.unmarshalMap (input (stub (a.index "ufanumber")))).index
              "raisedInvTotal"))) = false →
        validateInvoiceDetails L stub payload = "")) := by
  constructor
  · intro h
    simp [validateInvoiceDetails, h]
  · intro a b rest hl
    rw [validateInvoiceDetails_cons L stub payload a b rest hl]
    refine ⟨?_, ?_, ?_, ?_⟩
    · intro h1
      simp [(checkInvoicesRaised_iff L stub _ _).mpr h1]
    · intro h1 h2
      simp [checkInvoicesRaised_eq_false L stub _ _ h1, h2]
    · intro h1 h2 h3
      simp [checkInvoicesRaised_eq_false L stub _ _ h1, h2, h3]
    · intro h1 h2 h3
      simp [checkInvoicesRaised_eq_false L stub _ _ h1, h2, h3]

/-- C5 at a concrete input: UFA-1 has a listed invoice for 2024-01, the pair
submitted for 2024-01 has the amounts 5000 and 6000, above the maximum charge;
only the duplicate billing period is reported. -/
theorem validateInvoiceDetails_order_witness :
    validateInvoiceDetails goLib exInvoiced exInvoicesUnequal =
      "\nInvoice all already raised for 2024-01" :=
  have hp : "\nInvoice all already raised for " ++
      ((goLib.unmarshalMaps exInvoicesUnequal).getD 0 none).index "billingPeriod" =
      "\nInvoice all already raised for 2024-01" := by decide!
  have hr : PeriodRaised goLib exInvoiced
      (((goLib.unmarshalMaps exInvoicesUnequal).getD 0 none).index "ufanumber")
      (((goLib.unmarshalMaps exInvoicesUnequal).getD 0 none).index "billingPeriod") :=
    ⟨"INV-1", by decide!, by decide!⟩
  (((validateInvoiceDetails_order goLib exInvoiced exInvoicesUnequal).2 _ _ _
    (eq_cons_cons _ none (by decide!))).1 hr).trans hp

theorem F64.lt_irrefl (x : F64) : F64.lt x x = false := by
  cases x <;> simp [F64.lt]

/-- C6, as the specification states it, fails: an agreement with net charge
10^16, tolerance 1 and raised total 1 has the cap 10^16 * (1 + 1/100) =
10100000000000000; a pair of invoices of 10100000000000000 each, for a billing
period not raised before, has a + r = 10100000000000001, above the cap, and is
accepted: the float64 sum a + r rounds to 10100000000000000. -/
theorem validateInvoiceDetails_cap_rounding :
    validateNumber goLib ((goLib.unmarshalMap (input (exCreatedBig "UFA-2"))).index "netCharge") =
      F64.fin 10000000000000000 ∧
    validateNumber goLib ((goLib.unmarshalMap (input (exCreatedBig "UFA-2"))).index
      "chargTolrence") = F64.fin 1 ∧
    validateNumber goLib ((goLib.unmarshalMap (input (exCreatedBig "UFA-2"))).index
      "raisedInvTotal") = F64.fin 1 ∧
    validateNumber goLib (((goLib.unmarshalMaps exInvoicesBig).getD 0 none).index "invoiceAmt") =
      F64.fin 10100000000000000 ∧
    validateNumber goLib (((goLib.unmarshalMaps exInvoicesBig).getD 1 none).index "invoiceAmt") =
      F64.fin 10100000000000000 ∧
    checkInvoicesRaised goLib exCreatedBig "UFA-2" "2024-01" = false ∧
    (10000000000000000 * (1 + 1 / 100) < (10100000000000000 + 1 : ℚ)) ∧
    validateInvoiceDetails goLib exCreatedBig exInvoicesBig = "" := by
  decide!

/-- C6, amended. For a payload whose first two entries `a` and `b` have the same
amount and whose billing period is not raised for the agreement of `a`,
`validateInvoiceDetails` returns "Total invoice amount exceded" exactly when the
float64 test `maxCharge < a + r` is true, where `r` is the raised total of the
stored agreement and `maxCharge` is `n + n*t/100` computed in float64 from its
net charge and tolerance, and returns the empty message exactly when that test is
false; it is false when `a + r` equals `maxCharge`. -/
theorem validateInvoiceDetails_cap (L : GoLib) (stub : Store) (payload : String)
    (a b : GoMap) (rest : List GoMap) (hl : L.unmarshalMaps payload = a :: b :: rest)
    (hnot : ¬ PeriodRaised L stub (a.index "ufanumber") (a.index "billingPeriod"))
    (heq : F64.ne (validateNumber L (a.index "invoiceAmt"))
      (validateNumber L (b.index "invoiceAmt")) = false) :
    (validateInvoiceDetails L stub payload = "\nTotal invoice amount exceded" ↔
      F64.lt (maxCharge L (L.unmarshalMap (input (stub (a.index "ufanumber")))))
        (F64.add (validateNumber L (a.index "invoiceAmt"))
          (validateNumber L ((L.unmarshalMap (input (stub (a.index "ufanumber")))).index
            "raisedInvTotal"))) = true) ∧
    (validateInvoiceDetails L stub payload = "" ↔
      F64.lt (maxCharge L (L.unmarshalMap (input (stub (a.index "ufanumber")))))
        (F64.add (validateNumber L (a.index "invoiceAmt"))
          (validateNumber L ((L.unmarshalMap (input (stub (a.index "ufanumber")))).index
            "raisedInvTotal"))) = false) ∧
    (F64.add (validateNumber L (a.index "invoiceAmt"))
        (validateNumber L ((L.unmarshalMap (input (stub (a.index "ufanumber")))).index
          "raisedInvTotal")) =
      maxCharge L (L.unmarshalMap (input (stub (a.index "ufanumber")))) →
      validateInvoiceDetails L stub payload = "") := by
  rw [validateInvoiceDetails_cons L stub payload a b rest hl]
  simp only [checkInvoicesRaised_eq_false L stub _ _ hnot, heq]
  refine ⟨?_, ?_, ?_⟩
  · cases h : F64.lt (maxCharge L (L.unmarshalMap (input (stub (a.index "ufanumber")))))
        (F64.add (validateNumber L (a.index "invoiceAmt"))
          (validateNumber L ((L.unmarshalMap (input (stub (a.index "ufanumber")))).index
            "raisedInvTotal"))) <;> simp
  · cases h : F64.lt (maxCharge L (L.unmarshalMap (input (stub (a.index "ufanumber")))))
        (F64.add (validateNumber L (a.index "invoiceAmt"))
          (validateNumber L ((L.unmarshalMap (input (stub (a.index "ufanumber")))).index
            "raisedInvTotal"))) <;> simp
  · intro h
    rw [h, F64.lt_irrefl]
    simp

/-- C6, amended, at a concrete input: net charge 1000 and tolerance 5 give the
maximum charge 1050; with nothing raised so far a pair of invoices of 1050 is
accepted. -/
theorem validateInvoiceDetails_cap_witness :
    maxCharge goLib (goLib.unmarshalMap (input (exCreatedZero "UFA-3"))) = F64.fin 1050 ∧
    validateInvoiceDetails goLib exCreatedZero exInvoicesCap = "" :=
  have hnot : ¬ PeriodRaised goLib exCreatedZero
      (((goLib.unmarshalMaps exInvoicesCap).getD 0 none).index "ufanumber")
      (((goLib.unmarshalMaps exInvoicesCap).getD 0 none).index "billingPeriod") :=
    fun h => absurd ((checkInvoicesRaised_iff goLib exCreatedZero _ _).mpr h) (by decide!)
  ⟨by decide!,
    (validateInvoiceDetails_cap goLib exCreatedZero exInvoicesCap _ _ _
      (eq_cons_cons _ none (by decide!)) hnot (by decide!)).2.2 (by decide!)⟩

theorem raised_ne_not_same (p : String) : "\nInvoice all already raised for " ++ p ≠
    "\nCustomer and Vendor Invoice Amounts are not same" := by
  intro h
  have h2 := congrArg (fun s => s.data.get? 1) h
  simp [String.data_append] at h2

theorem raised_ne_exceded (p : String) : "\nInvoice all already raised for " ++ p ≠
    "\nTotal invoice amount exceded" := by
  intro h
  have h2 := congrArg (fun s => s.data.get? 1) h
  simp [String.data_append] at h2

theorem raised_ne_empty (p : String) : "\nInvoice all already raised for " ++ p ≠ "" := by
  intro h
  have h2 := congrArg String.length h
  simp at h2
  exact absurd h2.1 (by decide)

/-- C7, as the specification states it, fails: after UFA-1 is created as SELLER
with net charge 1000 and tolerance 5, a pair of invoices of 1040 for 2024-01 is
accepted, and a second pair for 2024-01 is accepted as well: the validation
returns a message and writes nothing, so the world state of the second call is
the world state of the first. -/
theorem validateInvoiceDetails_accepts_again :
    (createUFA goLib exInit "UFA-1" "SELLER" exPayload).2 = none ∧
    validateInvoiceDetails goLib exCreated exInvoices = "" ∧
    validateInvoiceDetails goLib exCreated exInvoicesAgain = "" := by
  decide!

/-- C7, amended. For a payload of at least two entries, `validateInvoiceDetails`
returns "Invoice all already raised for " and the billing period of the first
entry exactly when an invoice record listed in the Invoice Index of the agreement
of the first entry has that billing period. -/
theorem validateInvoiceDetails_duplicate (L : GoLib) (stub : Store) (payload : String)
    (a b : GoMap) (rest : List GoMap) (hl : L.unmarshalMaps payload = a :: b :: rest) :
    validateInvoiceDetails L stub payload =
        "\nInvoice all already raised for " ++ a.index "billingPeriod" ↔
      PeriodRaised L stub (a.index "ufanumber") (a.index "billingPeriod") := by
  rw [validateInvoiceDetails_cons L stub payload a b rest hl, ← checkInvoicesRaised_iff]
  constructor
  · intro h
    by_contra hc
    rw [Bool.not_eq_true] at hc
    rw [hc] at h
    simp only [Bool.false_eq_true, if_false] at h
    split_ifs at h
    · exact raised_ne_not_same _ h.symm
    · exact raised_ne_exceded _ h.symm
    · exact raised_ne_empty _ h.symm
  · intro h
    simp [h]

/-- C7, amended, at a concrete input: with an invoice for 2024-01 listed for
UFA-1, a pair of invoices of 10 for 2024-01 is reported as already raised. -/
theorem validateInvoiceDetails_duplicate_witness :
    validateInvoiceDetails goLib exInvoiced exInvoicesAgain =
      "\nInvoice all already raised for 2024-01" :=
  have hp : "\nInvoice all already raised for " ++
      ((goLib.unmarshalMaps exInvoicesAgain).getD 0 none).index "billingPeriod" =
      "\nInvoice all already raised for 2024-01" := by decide!
  have hr : PeriodRaised goLib exInvoiced
      (((goLib.unmarshalMaps exInvoicesAgain).getD 0 none).index "ufanumber")
      (((goLib.unmarshalMaps exInvoicesAgain).getD 0 none).index "billingPeriod") :=
    ⟨"INV-1", by decide!, by decide!⟩
  ((validateInvoiceDetails_duplicate goLib exInvoiced exInvoicesAgain _ _ _
    (eq_cons_cons _ none (by decide!))).mpr hr).trans hp

/-- C8 fails on the code: in the world state after `Init` no agreement UFA-1 is
stored, and for a pair of invoices of UFA-1 `validateInvoiceDetails` does not
return "Invalid UFA provided": it goes on to the three tests with the numbers of
an empty record, each read as -1, and reports the cap. -/
theorem validateInvoiceDetails_absent_agreement :
    exInit "UFA-1" = none ∧
    (goLib.unmarshalMaps exInvoices).length = 2 ∧
    ((goLib.unmarshalMaps exInvoices).getD 0 none).index "ufanumber" = "UFA-1" ∧
    validateInvoiceDetails goLib exInit exInvoices = "\nTotal invoice amount exceded" := by
  decide!

/-! ### Writes of the helpers -/

theorem appendUFATransactionHistory_other (L : GoLib) (stub : Store) (N p k : String)
    (hk : k ≠ UFA_TRXN_PREFIX ++ N) : (appendUFATransactionHistory L stub N p).1 k = stub k := by
  unfold appendUFATransactionHistory
  simp only [GetState]
  split <;> simp [PutState, hk]

theorem updateMasterRecords_other (L : GoLib) (stub : Store) (N k : String)
    (hk : k ≠ ALL_ELEMENENTS) : (updateMasterRecords L stub N).1 k = stub k := by
  unfold updateMasterRecords
  simp only [GetState]
  split <;> simp [PutState, hk]

theorem createUFA_store (L : GoLib) (stub : Store) (N who P : String)
    (hval : validateNewUFA L who P = "") :
    (createUFA L stub N who P).1 =
      (appendUFATransactionHistory L (updateMasterRecords L (PutState stub N P) N).1 N P).1 := by
  simp [createUFA, hval]

/-! ### updateUFA -/

theorem foldlM_assign (es : List (String × String)) (r : Rec) :
    es.foldlM (fun m e => GoMap.assign m e.1 e.2) (some r) =
      some (some (es.foldl (fun r e => r.insert e.1 e.2) r)) := by
  induction es generalizing r with
  | nil => rfl
  | cons e es ih =>
    rw [List.foldlM_cons]
    exact ih _

theorem lookup_foldl_insert (l : List (Sigma fun _ : String => String)) (hnd : l.NodupKeys)
    (r : Rec) (k : String) :
    ((l.map (fun e => (e.1, e.2))).foldl (fun r e => r.insert e.1 e.2) r).lookup k =
      (l.dlookup k).or (r.lookup k) := by
  induction l generalizing r with
  | nil => simp
  | cons e l ih =>
    obtain ⟨ek, ev⟩ := e
    rw [List.nodupKeys_cons] at hnd
    simp only [List.map_cons, List.foldl_cons]
    rw [ih hnd.2]
    by_cases hk : k = ek
    · subst hk
      have : List.dlookup k l = none := List.dlookup_eq_none.mpr hnd.1
      simp [this, AList.lookup_insert, List.dlookup_cons_eq]
    · have hd : List.dlookup k (⟨ek, ev⟩ :: l) = List.dlookup k l :=
        List.dlookup_cons_ne l ⟨ek, ev⟩ hk
      simp [AList.lookup_insert_ne hk, hd]

/-! ### The runnable library on well-formed UTF-8

A JSON text that `json.Marshal` writes for strings of well-formed UTF-8 is read
back as these strings, and the strings `json.Unmarshal` decodes are well-formed
UTF-8. -/

theorem GoStd.toNat_ofNat (n : Nat) (h : n < 0xD800) : (Char.ofNat n).toNat = n := by
  have hv : n.isValidChar := Or.inl h
  unfold Char.ofNat
  rw [dif_pos hv]
  simp [Char.ofNatAux, Char.toNat, UInt32.toNat]

theorem GoStd.isCont_of_toNat (c : Char) (n : Nat) (h : c.toNat = 0x80 + n) (hn : n < 64) :
    isCont c = true := by
  simp only [isCont, h, decide_eq_true_eq]
  omega

theorem GoStd.rune2_of_toNat (b0 b1 : Char) (a b : Nat) (h0 : b0.toNat = 0xC0 + a)
    (h1 : b1.toNat = 0x80 + b) (ha : 2 ≤ a ∧ a < 32) (hb : b < 64) :
    rune2 b0 b1 = some (a * 64 + b) := by
  have c1 := isCont_of_toNat b1 b h1 hb
  unfold rune2
  rw [h0, h1, c1, if_pos]
  · simp only [Nat.add_sub_cancel_left]
  · exact ⟨by omega, by omega, rfl⟩

theorem GoStd.rune2_none (b0 b1 : Char) (h0 : 0xE0 ≤ b0.toNat) : rune2 b0 b1 = none := by
  unfold rune2
  rw [if_neg (fun h => absurd h.2.1 (by omega))]

theorem GoStd.rune3_of_toNat (b0 b1 b2 : Char) (a b c : Nat) (h0 : b0.toNat = 0xE0 + a)
    (h1 : b1.toNat = 0x80 + b) (h2 : b2.toNat = 0x80 + c) (ha : a < 16) (hb : b < 64)
    (hc : c < 64) (hmin : 0x800 ≤ a * 4096 + b * 64 + c)
    (hs : isScalar (a * 4096 + b * 64 + c) = true) :
    rune3 b0 b1 b2 = some (a * 4096 + b * 64 + c) := by
  have c1 := isCont_of_toNat b1 b h1 hb
  have c2 := isCont_of_toNat b2 c h2 hc
  have e : (0xE0 + a - 0xE0) * 4096 + (0x80 + b - 0x80) * 64 + (0x80 + c - 0x80) =
      a * 4096 + b * 64 + c := by
    simp only [Nat.add_sub_cancel_left]
  unfold rune3
  rw [h0, h1, h2, c1, c2, e, hs, if_pos]
  exact ⟨by omega, by omega, rfl, rfl, hmin, rfl⟩

theorem GoStd.rune3_none (b0 b1 b2 : Char) (h0 : 0xF0 ≤ b0.toNat) : rune3 b0 b1 b2 = none := by
  unfold rune3
  rw [if_neg (fun h => absurd h.2.1 (by omega))]

theorem GoStd.rune4_of_toNat (b0 b1 b2 b3 : Char) (a b c d : Nat) (h0 : b0.toNat = 0xF0 + a)
    (h1 : b1.toNat = 0x80 + b) (h2 : b2.toNat = 0x80 + c) (h3 : b3.toNat = 0x80 + d)
    (ha : a < 8) (hb : b < 64) (hc : c < 64) (hd : d < 64)
    (hmin : 0x10000 ≤ a * 262144 + b * 4096 + c * 64 + d)
    (hmax : a * 262144 + b * 4096 + c * 64 + d < 0x110000) :
    rune4 b0 b1 b2 b3 = some (a * 262144 + b * 4096 + c * 64 + d) := by
  have c1 := isCont_of_toNat b1 b h1 hb
  have c2 := isCont_of_toNat b2 c h2 hc
  have c3 := isCont_of_toNat b3 d h3 hd
  have e : (0xF0 + a - 0xF0) * 262144 + (0x80 + b - 0x80) * 4096 + (0x80 + c - 0x80) * 64 +
      (0x80 + d - 0x80) = a * 262144 + b * 4096 + c * 64 + d := by
    simp only [Nat.add_sub_cancel_left]
  unfold rune4
  rw [h0, h1, h2, h3, c1, c2, c3, e, if_pos]
  exact ⟨by omega, by omega, rfl, rfl, rfl, hmin, hmax⟩

theorem GoStd.decodeFrom_encodeScalar (r : Nat) (hr : isScalar r = true) (rest : List Char) :
    decodeFrom 0 (encodeScalar r ++ rest) = some r :: decodeFrom 0 rest := by
  have hs : r < 0xD800 ∨ (0xE000 ≤ r ∧ r < 0x110000) := by
    simpa [isScalar] using hr
  unfold encodeScalar
  split_ifs with h1 h2 h3
  · simp [decodeFrom, toNat_ofNat r (by omega), h1]
  · have e0 := toNat_ofNat (0xC0 + r / 64) (by omega)
    have e1 := toNat_ofNat (0x80 + r % 64) (by omega)
    have hv := rune2_of_toNat _ _ (r / 64) (r % 64) e0 e1 (by omega) (by omega)
    have hr2 : r / 64 * 64 + r % 64 = r := by omega
    rw [hr2] at hv
    have hge : ¬ (0xC0 + r / 64 < 0x80) := by omega
    simp [decodeFrom, decodeRune, e0, hv, hge]
  · have e0 := toNat_ofNat (0xE0 + r / 4096) (by omega)
    have e1 := toNat_ofNat (0x80 + r / 64 % 64) (by omega)
    have e2 := toNat_ofNat (0x80 + r % 64) (by omega)
    have hr3 : r / 4096 * 4096 + r / 64 % 64 * 64 + r % 64 = r := by omega
    have hv2 := rune2_none (Char.ofNat (0xE0 + r / 4096)) (Char.ofNat (0x80 + r / 64 % 64))
      (by omega)
    have hv3 := rune3_of_toNat _ _ _ (r / 4096) (r / 64 % 64) (r % 64) e0 e1 e2 (by omega)
      (by omega) (by omega) (by omega) (by rw [hr3]; exact hr)
    rw [hr3] at hv3
    have hge : ¬ (0xE0 + r / 4096 < 0x80) := by omega
    simp [decodeFrom, decodeRune, e0, hv2, hv3, hge]
  · have e0 := toNat_ofNat (0xF0 + r / 262144) (by omega)
    have e1 := toNat_ofNat (0x80 + r / 4096 % 64) (by omega)
    have e2 := toNat_ofNat (0x80 + r / 64 % 64) (by omega)
    have e3 := toNat_ofNat (0x80 + r % 64) (by omega)
    have hr4 : r / 262144 * 262144 + r / 4096 % 64 * 4096 + r / 64 % 64 * 64 + r % 64 = r := by
      omega
    have hv2 := rune2_none (Char.ofNat (0xF0 + r / 262144)) (Char.ofNat (0x80 + r / 4096 % 64))
      (by omega)
    have hv3 := rune3_none (Char.ofNat (0xF0 + r / 262144)) (Char.ofNat (0x80 + r / 4096 % 64))
      (Char.ofNat (0x80 + r / 64 % 64)) (by omega)
    have hv4 := rune4_of_toNat _ _ _ _ (r / 262144) (r / 4096 % 64) (r / 64 % 64) (r % 64)
      e0 e1 e2 e3 (by omega) (by omega) (by omega) (by omega) (by omega) (by omega)
    rw [hr4] at hv4
    have hge : ¬ (0xF0 + r / 262144 < 0x80) := by omega
    simp [decodeFrom, decodeRune, e0, hv2, hv3, hv4, hge]

theorem GoStd.encodeRune_eq (x : Nat) :
    encodeRune x = encodeScalar (if isScalar x = true then x else 0xFFFD) := by
  unfold encodeRune
  split <;> rfl

theorem GoStd.decodeFrom_flatMap (runes : List Nat) (h : ∀ r ∈ runes, isScalar r = true)
    (rest : List Char) :
    decodeFrom 0 (runes.flatMap encodeScalar ++ rest) = runes.map some ++ decodeFrom 0 rest := by
  induction runes with
  | nil => rfl
  | cons r rs ih =>
    rw [List.flatMap_cons, List.append_assoc, decodeFrom_encodeScalar r (h r (List.mem_cons_self _ _)),
      ih (fun x hx => h x (List.mem_cons_of_mem _ hx))]
    rfl

theorem GoStd.decodeUtf8_flatMap (runes : List Nat) (h : ∀ r ∈ runes, isScalar r = true) :
    decodeUtf8 (runes.flatMap encodeScalar) = runes.map some := by
  have := decodeFrom_flatMap runes h []
  simpa [decodeUtf8, decodeFrom] using this

/-- The runes whose bytes `coerceUtf8` writes. -/
theorem GoStd.coerceUtf8_eq (bs : List Char) :
    ∃ runes : List Nat, (∀ r ∈ runes, isScalar r = true) ∧
      coerceUtf8 bs = runes.flatMap encodeScalar := by
  refine ⟨(decodeUtf8 bs).map
    (fun o => if isScalar (o.getD 0xFFFD) = true then o.getD 0xFFFD else 0xFFFD), ?_, ?_⟩
  · intro r hr
    obtain ⟨o, _, ho⟩ := List.mem_map.mp hr
    subst ho
    split
    · assumption
    · decide
  · unfold coerceUtf8
    rw [List.flatMap_map]
    congr 1
    funext o
    exact encodeRune_eq _

theorem GoStd.coerceUtf8_flatMap (runes : List Nat) (h : ∀ r ∈ runes, isScalar r = true) :
    coerceUtf8 (runes.flatMap encodeScalar) = runes.flatMap encodeScalar := by
  unfold coerceUtf8
  rw [decodeUtf8_flatMap runes h, List.flatMap_map]
  apply List.flatMap_congr
  intro r hr
  simp [encodeRune, h r hr]

theorem GoStd.coerceUtf8_coerceUtf8 (bs : List Char) :
    coerceUtf8 (coerceUtf8 bs) = coerceUtf8 bs := by
  obtain ⟨runes, h, e⟩ := coerceUtf8_eq bs
  rw [e]
  exact coerceUtf8_flatMap runes h

theorem GoStd.pushAll_cons (c : Char) (cs : List Char) (x : Option (List Char × List Char)) :
    push c (pushAll cs x) = pushAll (c :: cs) x := by
  cases x <;> rfl

theorem GoStd.pushAll_nil (x : Option (List Char × List Char)) : pushAll [] x = x := by
  cases x <;> rfl

theorem GoStd.pushAll_pushAll (as bs : List Char) (x : Option (List Char × List Char)) :
    pushAll as (pushAll bs x) = pushAll (as ++ bs) x := by
  cases x <;> simp [pushAll]

theorem GoStd.readFrom_plain (c : Char) (tl : List Char) (h1 : c.toNat ≠ 34) (h2 : c.toNat ≠ 92)
    (h3 : 32 ≤ c.toNat) : readFrom 0 (c :: tl) = push c (readFrom 0 tl) := by
  have q : c ≠ '"' := fun e => h1 (by rw [e]; rfl)
  have b : c ≠ '\\' := fun e => h2 (by rw [e]; rfl)
  rw [readFrom.eq_def]
  simp [q, b, Nat.not_lt.mpr h3]

theorem GoStd.readFrom_encodeScalar (r : Nat) (hr : isScalar r = true) (h1 : r ≠ 34)
    (h2 : r ≠ 92) (h3 : 32 ≤ r) (tl : List Char) :
    readFrom 0 (encodeScalar r ++ tl) = pushAll (encodeScalar r) (readFrom 0 tl) := by
  have hs : r < 0xD800 ∨ (0xE000 ≤ r ∧ r < 0x110000) := by
    simpa [isScalar] using hr
  unfold encodeScalar
  split_ifs with c1 c2 c3
  · have e0 := toNat_ofNat r (by omega)
    rw [List.singleton_append, readFrom_plain _ _ (by omega) (by omega) (by omega),
      ← pushAll_nil (readFrom 0 tl), pushAll_cons, pushAll_nil]
  · have e0 := toNat_ofNat (0xC0 + r / 64) (by omega)
    have e1 := toNat_ofNat (0x80 + r % 64) (by omega)
    simp only [List.cons_append, List.nil_append]
    rw [readFrom_plain _ _ (by omega) (by omega) (by omega),
      readFrom_plain _ _ (by omega) (by omega) (by omega)]
    cases readFrom 0 tl <;> rfl
  · have e0 := toNat_ofNat (0xE0 + r / 4096) (by omega)
    have e1 := toNat_ofNat (0x80 + r / 64 % 64) (by omega)
    have e2 := toNat_ofNat (0x80 + r % 64) (by omega)
    simp only [List.cons_append, List.nil_append]
    rw [readFrom_plain _ _ (by omega) (by omega) (by omega),
      readFrom_plain _ _ (by omega) (by omega) (by omega),
      readFrom_plain _ _ (by omega) (by omega) (by omega)]
    cases readFrom 0 tl <;> rfl
  · have e0 := toNat_ofNat (0xF0 + r / 262144) (by omega)
    have e1 := toNat_ofNat (0x80 + r / 4096 % 64) (by omega)
    have e2 := toNat_ofNat (0x80 + r / 64 % 64) (by omega)
    have e3 := toNat_ofNat (0x80 + r % 64) (by omega)
    simp only [List.cons_append, List.nil_append]
    rw [readFrom_plain _ _ (by omega) (by omega) (by omega),
      readFrom_plain _ _ (by omega) (by omega) (by omega),
      readFrom_plain _ _ (by omega) (by omega) (by omega),
      readFrom_plain _ _ (by omega) (by omega) (by omega)]
    cases readFrom 0 tl <;> rfl

theorem GoStd.hexVal_hexDigit (n : Nat) (h : n < 16) : hexVal (hexDigit n) = some n := by
  interval_cases n <;> decide

theorem GoStd.hex4_uEscape (n : Nat) (h : n < 0x10000) :
    hex4 (hexDigit (n / 4096 % 16)) (hexDigit (n / 256 % 16)) (hexDigit (n / 16 % 16))
      (hexDigit (n % 16)) = some n := by
  unfold hex4
  rw [hexVal_hexDigit _ (by omega), hexVal_hexDigit _ (by omega), hexVal_hexDigit _ (by omega),
    hexVal_hexDigit _ (by omega)]
  simp only [Option.some.injEq]
  omega

theorem GoStd.readFrom_skip5 (a b c d e : Char) (tl : List Char) :
    readFrom 5 (a :: b :: c :: d :: e :: tl) = readFrom 0 tl := by
  simp only [readFrom]

theorem GoStd.readFrom_uEscape (n : Nat) (h : n < 0xD800) (tl : List Char) :
    readFrom 0 (uEscape n ++ tl) = pushAll (encodeRune n) (readFrom 0 tl) := by
  have hx := hex4_uEscape n (by omega)
  have hn : ¬ (0xD800 ≤ n ∧ n < 0xDC00) := by omega
  unfold uEscape
  simp only [List.cons_append, List.nil_append]
  rw [readFrom.eq_def]
  simp only [hx, hn, if_false, readFrom_skip5]
  cases lowSurrogate tl <;> simp

theorem GoStd.readFrom_escape (e d : Char) (tl : List Char) (he : e ≠ 'u')
    (hd : unescape e = some d) :
    readFrom 0 ('\\' :: e :: tl) = push d (readFrom 0 tl) := by
  rw [readFrom.eq_def]
  simp only [he, hd, if_false]
  cases tl <;> simp [readFrom]

theorem GoStd.readFrom_escapeRune (r : Nat) (hr : isScalar r = true) (tl : List Char) :
    readFrom 0 (escapeRune (some r) ++ tl) = pushAll (encodeScalar r) (readFrom 0 tl) := by
  simp only [escapeRune]
  split_ifs with c1 c2 c3 c4 c5 c6
  · subst c1
    rw [List.cons_append, List.cons_append, List.nil_append,
      readFrom_escape '"' '"' tl (by decide) (by decide)]
    cases readFrom 0 tl <;> rfl
  · subst c2
    rw [List.cons_append, List.cons_append, List.nil_append,
      readFrom_escape '\\' '\\' tl (by decide) (by decide)]
    cases readFrom 0 tl <;> rfl
  · subst c3
    rw [List.cons_append, List.cons_append, List.nil_append,
      readFrom_escape 'n' '\n' tl (by decide) (by decide)]
    cases readFrom 0 tl <;> rfl
  · subst c4
    rw [List.cons_append, List.cons_append, List.nil_append,
      readFrom_escape 'r' '\r' tl (by decide) (by decide)]
    cases readFrom 0 tl <;> rfl
  · subst c5
    rw [List.cons_append, List.cons_append, List.nil_append,
      readFrom_escape 't' '\t' tl (by decide) (by decide)]
    cases readFrom 0 tl <;> rfl
  · rw [readFrom_uEscape r (by omega) tl, encodeRune, if_pos hr]
  · rw [encodeRune, if_pos hr]
    exact readFrom_encodeScalar r hr c1 c2 (by omega) tl

theorem GoStd.readFrom_body (runes : List Nat) (h : ∀ r ∈ runes, isScalar r = true)
    (rest : List Char) :
    readFrom 0 ((runes.map some).flatMap escapeRune ++ '"' :: rest) =
      some (runes.flatMap encodeScalar, rest) := by
  induction runes with
  | nil =>
    rw [readFrom.eq_def]
    simp
  | cons r rs ih =>
    rw [List.map_cons, List.flatMap_cons, List.append_assoc,
      readFrom_escapeRune r (h r (List.mem_cons_self _ _)),
      ih (fun x hx => h x (List.mem_cons_of_mem _ hx))]
    rfl

/-- The text of a string of well-formed UTF-8 is read back as the string. -/
theorem GoStd.readFrom_quote (s : String) (hs : coerceUtf8 s.data = s.data) (rest : List Char) :
    ∃ body, quote s ++ rest = '"' :: body ∧ readFrom 0 body = some (s.data, rest) := by
  obtain ⟨runes, h, e⟩ := coerceUtf8_eq s.data
  rw [hs] at e
  refine ⟨(runes.map some).flatMap escapeRune ++ '"' :: rest, ?_, ?_⟩
  · unfold quote
    rw [e, decodeUtf8_flatMap runes h]
    simp
  · rw [readFrom_body runes h rest, e]

theorem GoStd.skipWs_cons (c : Char) (cs : List Char) (h : isSpace c = false) :
    skipWs (c :: cs) = c :: cs := by
  simp [skipWs, h]

theorem GoStd.readMembers_step (fuel : Nat) (acc : Rec) (err : Bool) (k v : String)
    (c : Char) (tl : List Char) (hk : coerceUtf8 k.data = k.data)
    (hv : coerceUtf8 v.data = v.data) (hc : isSpace c = false) :
    readMembers (fuel + 1) acc err (quote k ++ ':' :: (quote v ++ c :: tl)) =
      if c = ',' then readMembers fuel (acc.insert k v) err tl
      else if c = '\x7d' then some (acc.insert k v, err, tl)
      else none := by
  obtain ⟨body1, hq1, hr1⟩ := readFrom_quote k hk (':' :: (quote v ++ c :: tl))
  obtain ⟨body2, hq2, hr2⟩ := readFrom_quote v hv (c :: tl)
  rw [hq2] at hr1
  rw [hq1, readMembers]
  simp only [skipWs_cons '"' _ (by decide), readString, hr1, skipWs_cons ':' _ (by decide),
    readValue, hr2, skipWs_cons c _ hc, hk, hv, Bool.or_false]

theorem GoStd.readMembers_commaSep (es : List (String × String))
    (hes : ∀ e ∈ es, coerceUtf8 e.1.data = e.1.data ∧ coerceUtf8 e.2.data = e.2.data)
    (hne : es ≠ []) (fuel : Nat) (hf : es.length ≤ fuel) (acc : Rec) (err : Bool)
    (tl : List Char) :
    readMembers fuel acc err
        (commaSep (es.map (fun e => quote e.1 ++ ':' :: quote e.2)) ++ '\x7d' :: tl) =
      some (es.foldl (fun a e => a.insert e.1 e.2) acc, err, tl) := by
  induction es generalizing fuel acc with
  | nil => exact absurd rfl hne
  | cons e es ih =>
    obtain ⟨fuel, rfl⟩ : ∃ f, fuel = f + 1 := ⟨fuel - 1, by simp at hf; omega⟩
    have he := hes e (List.mem_cons_self _ _)
    cases es with
    | nil =>
      simp only [List.map_cons, List.map_nil, commaSep, List.append_assoc, List.cons_append,
        List.foldl_cons, List.foldl_nil]
      rw [readMembers_step fuel acc err e.1 e.2 '\x7d' tl he.1 he.2 (by decide)]
      simp
    | cons e2 es2 =>
      simp only [List.map_cons, commaSep, List.append_assoc, List.cons_append, List.foldl_cons]
      rw [readMembers_step fuel acc err e.1 e.2 ',' _ he.1 he.2 (by decide)]
      simp only [if_true]
      have := ih (fun x hx => hes x (List.mem_cons_of_mem _ hx)) (by simp) fuel
        (by simp at hf ⊢; omega) (acc.insert e.1 e.2)
      simpa [commaSep] using this

theorem GoStd.quote_eq_cons (s : String) : ∃ body, quote s = '"' :: body :=
  ⟨_, rfl⟩

theorem GoStd.length_commaSep (xs : List (List Char)) (h : ∀ x ∈ xs, 1 ≤ x.length) :
    xs.length ≤ (commaSep xs).length := by
  induction xs with
  | nil => simp
  | cons x xs ih =>
    have hx := h x (List.mem_cons_self _ _)
    cases xs with
    | nil => simpa [commaSep] using hx
    | cons y ys =>
      have := ih (fun z hz => h z (List.mem_cons_of_mem _ hz))
      simp only [commaSep, List.length_append, List.length_cons] at this ⊢
      omega

theorem GoStd.insertSorted_perm (e : String × String) (l : List (String × String)) :
    (insertSorted e l).Perm (e :: l) := by
  induction l with
  | nil => exact List.Perm.refl _
  | cons x xs ih =>
    unfold insertSorted
    split
    · exact List.Perm.refl _
    · exact (List.Perm.cons x ih).trans (List.Perm.swap e x xs)

theorem GoStd.sortedEntries_perm (r : Rec) :
    (sortedEntries (some r)).Perm (r.entries.map (fun e => (e.1, e.2))) := by
  unfold sortedEntries GoMap.entries
  simp only
  induction r.entries.map (fun e => (e.1, e.2)) with
  | nil => exact List.Perm.refl _
  | cons x xs ih => exact (insertSorted_perm x _).trans (List.Perm.cons x ih)

theorem GoStd.lookup_foldl_sortedEntries (r : Rec) (k : String) :
    ((sortedEntries (some r)).foldl (fun a e => a.insert e.1 e.2) (∅ : Rec)).lookup k =
      r.lookup k := by
  have hp : ((sortedEntries (some r)).map
      (fun p => (⟨p.1, p.2⟩ : Sigma fun _ : String => String))).Perm r.entries := by
    have := (sortedEntries_perm r).map (fun p => (⟨p.1, p.2⟩ : Sigma fun _ : String => String))
    simpa [List.map_map, Function.comp_def] using this
  have hnd := (List.perm_nodupKeys hp).mpr r.nodupKeys
  have hl := lookup_foldl_insert _ hnd ∅ k
  simp only [List.map_map, Function.comp_def, List.map_id'] at hl
  rw [hl, List.perm_dlookup k hnd r.nodupKeys hp]
  simp [AList.lookup]

theorem GoStd.unmarshalMap_marshalMap (r : Rec)
    (hr : ∀ e ∈ r.entries, coerceUtf8 e.1.data = e.1.data ∧ coerceUtf8 e.2.data = e.2.data) :
    unmarshalMap (marshalMap (some r)) =
      some ((sortedEntries (some r)).foldl (fun a e => a.insert e.1 e.2) (∅ : Rec)) := by
  have hes : ∀ e ∈ sortedEntries (some r),
      coerceUtf8 e.1.data = e.1.data ∧ coerceUtf8 e.2.data = e.2.data := by
    intro e he
    have := (sortedEntries_perm r).mem_iff.mp he
    obtain ⟨x, hx, rfl⟩ := List.mem_map.mp this
    exact hr x hx
  unfold unmarshalMap marshalMap mapText
  simp only [String.length_mk, skipWs_cons '\x7b' _ (by decide)]
  cases hs : sortedEntries (some r) with
  | nil =>
    have h1 : isSpace '\x7d' = false := by decide
    simp [commaSep, readMap, skipWs, h1]
  | cons e es =>
    rw [hs] at hes
    have hlen : (e :: es).length ≤ (('\x7b' :: (commaSep ((e :: es).map
        (fun e => quote e.1 ++ ':' :: quote e.2)) ++ ['\x7d'])).length + 1) := by
      have := length_commaSep ((e :: es).map (fun e => quote e.1 ++ ':' :: quote e.2))
        (by
          intro x hx
          obtain ⟨y, _, rfl⟩ := List.mem_map.mp hx
          simp [quote])
      simp only [List.length_map, List.length_cons, List.length_append] at this ⊢
      omega
    have hrd := readMembers_commaSep (e :: es) hes (by simp) _ hlen ∅ false []
    have hq : ∃ body, commaSep ((e :: es).map (fun e => quote e.1 ++ ':' :: quote e.2)) ++
        ['\x7d'] = '"' :: body := by
      cases es with
      | nil => exact ⟨_, rfl⟩
      | cons e2 es2 => exact ⟨_, rfl⟩
    obtain ⟨body, hb⟩ := hq
    rw [hb] at hrd ⊢
    unfold readMap
    have h2 : isSpace '"' = false := by decide
    generalize List.foldl (fun a e => AList.insert e.1 e.2 a) (∅ : Rec) (e :: es) = R at hrd ⊢
    simp only [List.length_cons] at hrd
    simp [skipWs, h2, hrd]

theorem Clean_insert (r : Rec) (k v : String) (hr : Clean r) (hk : Utf8 k) (hv : Utf8 v) :
    Clean (r.insert k v) := by
  intro e he
  rw [AList.insert_entries] at he
  rcases List.mem_cons.mp he with h | h
  · subst h
    exact ⟨hk, hv⟩
  · exact hr e ((List.kerase_sublist k r.entries).subset h)

theorem Clean_empty : Clean (∅ : Rec) := by
  intro e he
  cases he

theorem GoStd.readValue_utf8 (fuel : Nat) (cs v : List Char) (e : Bool) (rest : List Char)
    (h : readValue fuel cs = some (v, e, rest)) : coerceUtf8 v = v := by
  unfold readValue at h
  split at h
  · split at h
    · cases h
      exact coerceUtf8_coerceUtf8 _
    · cases h
  · cases h
    rfl
  · split at h
    · cases h
      rfl
    · cases h

theorem GoStd.readMembers_clean (fuel : Nat) (acc : Rec) (err : Bool) (cs : List Char) (r : Rec)
    (e : Bool) (rest : List Char) (hacc : Clean acc)
    (h : readMembers fuel acc err cs = some (r, e, rest)) : Clean r := by
  induction fuel generalizing acc err cs with
  | zero => simp [readMembers] at h
  | succ fuel ih =>
    rw [readMembers] at h
    split at h
    · split at h
      · cases h
      · split at h
        · split at h
          · cases h
          · split at h
            · split_ifs at h
              · exact ih _ _ _ (Clean_insert _ _ _ hacc (coerceUtf8_coerceUtf8 _)
                  (readValue_utf8 _ _ _ _ _ (by assumption))) h
              · cases h
                exact Clean_insert _ _ _ hacc (coerceUtf8_coerceUtf8 _)
                  (readValue_utf8 _ _ _ _ _ (by assumption))
            · cases h
        · cases h
    · cases h

theorem GoStd.unmarshalMap_clean (b : String) (r : Rec) (h : unmarshalMap b = some r) :
    Clean r := by
  unfold unmarshalMap at h
  split at h
  · rename_i m e rest heq
    split at h
    · subst h
      unfold readMap at heq
      split at heq
      · cases heq
      · split at heq
        · cases heq
          exact Clean_empty
        · split at heq
          · rename_i hm
            cases heq
            exact readMembers_clean _ _ _ _ _ _ _ Clean_empty hm
          · cases heq
      · split at heq <;> cases heq
    · cases h
  · cases h

theorem goLib_mapLaws : MapLaws goLib where
  decoded_clean := GoStd.unmarshalMap_clean
  clean_round_trip := fun r hr =>
    ⟨_, GoStd.unmarshalMap_marshalMap r hr, GoStd.lookup_foldl_sortedEntries r⟩

theorem GoStd.readStringOrNull_utf8 (cs s rest : List Char)
    (h : readStringOrNull cs = some (s, rest)) : coerceUtf8 s = s := by
  unfold readStringOrNull at h
  split at h
  · split at h
    · cases h
      exact coerceUtf8_coerceUtf8 _
    · cases h
  · cases h
    rfl
  · cases h

theorem GoStd.readStrings_clean (fuel : Nat) (cs : List Char) (l : List String)
    (rest : List Char) (h : readStrings fuel cs = some (l, rest)) : ∀ s ∈ l, Utf8 s := by
  induction fuel generalizing cs l rest with
  | zero => simp [readStrings] at h
  | succ fuel ih =>
    rw [readStrings] at h
    split at h
    · cases h
    · rename_i s rest0 hs
      have hu : Utf8 (String.mk s) := readStringOrNull_utf8 _ _ _ hs
      split at h
      · split_ifs at h
        · split at h
          · rename_i l1 rest2 h1
            cases h
            intro x hx
            rcases List.mem_cons.mp hx with hx | hx
            · subst hx
              exact hu
            · exact ih _ _ _ h1 x hx
          · cases h
        · cases h
          intro x hx
          rcases List.mem_cons.mp hx with hx | hx
          · subst hx
            exact hu
          · cases hx
      · cases h

theorem GoStd.unmarshalList_clean (b : String) (l : List String)
    (h : unmarshalList b = some l) : ∀ s ∈ l, Utf8 s := by
  unfold unmarshalList at h
  split at h
  · split at h
    · cases h
      intro s hs
      cases hs
    · cases h
  · split at h
    · split at h
      · cases h
        intro s hs
        cases hs
      · cases h
    · split at h
      · rename_i h1
        split at h
        · cases h
          exact readStrings_clean _ _ _ _ h1
        · cases h
      · cases h
  · cases h

theorem GoStd.readStrings_step (fuel : Nat) (s : String) (c : Char) (tl : List Char)
    (hs : coerceUtf8 s.data = s.data) (hc : isSpace c = false) :
    readStrings (fuel + 1) (quote s ++ c :: tl) =
      if c = ',' then
        match readStrings fuel tl with
        | some (l, rest2) => some (s :: l, rest2)
        | none => none
      else if c = ']' then some ([s], tl)
      else none := by
  obtain ⟨body, hq, hr⟩ := readFrom_quote s hs (c :: tl)
  rw [hq, readStrings]
  simp only [skipWs_cons '"' _ (by decide), readStringOrNull, readString, hr,
    skipWs_cons c _ hc, hs]

theorem GoStd.readStrings_commaSep (l : List String) (hl : ∀ s ∈ l, coerceUtf8 s.data = s.data)
    (hne : l ≠ []) (fuel : Nat) (hf : l.length ≤ fuel) (tl : List Char) :
    readStrings fuel (commaSep (l.map quote) ++ ']' :: tl) = some (l, tl) := by
  induction l generalizing fuel with
  | nil => exact absurd rfl hne
  | cons s l ih =>
    obtain ⟨fuel, rfl⟩ : ∃ f, fuel = f + 1 := ⟨fuel - 1, by simp at hf; omega⟩
    have hs := hl s (List.mem_cons_self _ _)
    cases l with
    | nil =>
      simp only [List.map_cons, List.map_nil, commaSep]
      rw [readStrings_step fuel s ']' tl hs (by decide)]
      simp
    | cons s2 l2 =>
      simp only [List.map_cons, commaSep, List.append_assoc, List.cons_append]
      rw [readStrings_step fuel s ',' _ hs (by decide)]
      have := ih (fun x hx => hl x (List.mem_cons_of_mem _ hx)) (by simp) fuel
        (by simp at hf ⊢; omega)
      simp only [List.map_cons] at this
      simp [this]

theorem GoStd.unmarshalList_marshalList (l : List String)
    (hl : ∀ s ∈ l, coerceUtf8 s.data = s.data) : unmarshalList (marshalList l) = some l := by
  cases l with
  | nil => decide
  | cons s l =>
    have hlen : (s :: l).length ≤
        ('[' :: (commaSep ((s :: l).map quote) ++ [']'])).length := by
      have := length_commaSep ((s :: l).map quote)
        (by
          intro x hx
          obtain ⟨y, _, rfl⟩ := List.mem_map.mp hx
          simp [quote])
      simp only [List.length_map, List.length_cons, List.length_append] at this ⊢
      omega
    have hrd := readStrings_commaSep (s :: l) hl (by simp) _ hlen []
    have hq : ∃ body, commaSep ((s :: l).map quote) ++ [']'] = '"' :: body := by
      cases l with
      | nil => exact ⟨_, rfl⟩
      | cons s2 l2 => exact ⟨_, rfl⟩
    obtain ⟨body, hb⟩ := hq
    unfold unmarshalList marshalList
    simp only [String.length_mk, skipWs_cons '[' _ (by decide)]
    rw [hb] at hrd ⊢
    have h2 : isSpace '"' = false := by decide
    simp only [List.length_cons] at hrd
    simp [skipWs, h2, hrd]

theorem goLib_listLaws : ListLaws goLib where
  decoded_clean := GoStd.unmarshalList_clean
  clean_round_trip := GoStd.unmarshalList_marshalList

theorem appended_round_trip (L : GoLib) (hL : ListLaws L) (b : String) (l : List String)
    (N : String) (hdec : L.unmarshalList b = some l) (hN : Utf8 N) :
    L.unmarshalList (L.marshalList (l ++ [N])) = some (l ++ [N]) := by
  apply hL.clean_round_trip
  intro s hs
  rcases List.mem_append.mp hs with h | h
  · exact hL.decoded_clean b l hdec s h
  · have hsN : s = N := by simpa using h
    subst hsN
    exact hN

/-! ### The merge of updateUFA -/

theorem Clean_foldl_insert (es : List (String × String)) (r : Rec) (hr : Clean r)
    (hes : ∀ e ∈ es, Utf8 e.1 ∧ Utf8 e.2) :
    Clean (es.foldl (fun r e => r.insert e.1 e.2) r) := by
  induction es generalizing r with
  | nil => exact hr
  | cons e es ih =>
    have he := hes e (List.mem_cons_self _ _)
    exact ih _ (Clean_insert r _ _ hr he.1 he.2) (fun x hx => hes x (List.mem_cons_of_mem _ hx))

/-- C9. For a standard library with the laws `MapLaws`: when the record of
agreement `N` decodes to the mapping `m` and the update payload decodes to the
mapping `u`, `updateUFA` returns normally and the record then stored under `N`
decodes to a mapping that has the value of `u` on every key of `u`, the value of
`m` on every key of `m` that is not a key of `u`, and no other key. The role is
not looked at and nothing is validated. -/
theorem updateUFA_merges (L : GoLib) (hL : MapLaws L) (stub : Store) (N payload : String)
    (m u : Rec) (hm : L.unmarshalMap (input (stub N)) = some m)
    (hu : L.unmarshalMap payload = some u) :
    ∃ stub1, updateUFA L stub N payload = some stub1 ∧
      ∃ r1 : Rec, L.unmarshalMap (input (stub1 N)) = some r1 ∧
        ∀ k, r1.lookup k = (u.lookup k).or (m.lookup k) := by
  have hne : N ≠ UFA_TRXN_PREFIX ++ N := fun h => trxn_key_ne_self N h.symm
  have hclean : Clean ((u.entries.map (fun e => (e.1, e.2))).foldl
      (fun r e => r.insert e.1 e.2) m) := by
    apply Clean_foldl_insert _ _ (hL.decoded_clean _ _ hm)
    intro e he
    obtain ⟨x, hx, rfl⟩ := List.mem_map.mp he
    exact hL.decoded_clean _ _ hu x hx
  obtain ⟨r1, hr1, hlk⟩ := hL.clean_round_trip _ hclean
  refine ⟨(appendUFATransactionHistory L (PutState stub N (L.marshalMap (some
    ((u.entries.map (fun e => (e.1, e.2))).foldl (fun r e => r.insert e.1 e.2) m)))) N payload).1,
    ?_, r1, ?_, ?_⟩
  · simp only [updateUFA, GetState, hm, hu, updateRecord, GoMap.entries, foldlM_assign]
  · rw [appendUFATransactionHistory_other L _ N payload N hne]
    simpa [PutState, input] using hr1
  · intro k
    rw [hlk k, lookup_foldl_insert u.entries u.nodupKeys m k]
    rfl

theorem exCreated_record_isSome :
    (goLib.unmarshalMap (input (exCreated "UFA-1"))).isSome = true := by
  decide!

theorem exUpdate_isSome : (goLib.unmarshalMap exUpdate).isSome = true := by
  decide!

/-- C9 at a concrete input: UFA-1 was created with net charge 1000 and tolerance
5; after the update with net charge 2000 the stored record decodes to a mapping
with net charge 2000 and tolerance 5. -/
theorem updateUFA_merges_witness :
    ∃ stub1, updateUFA goLib exCreated "UFA-1" exUpdate = some stub1 ∧
      ∃ r1 : Rec, goLib.unmarshalMap (input (stub1 "UFA-1")) = some r1 ∧
        r1.lookup "netCharge" = some "2000" ∧ r1.lookup "chargTolrence" = some "5" ∧
        r1.lookup "active" = none :=
  match updateUFA_merges goLib goLib_mapLaws exCreated "UFA-1" exUpdate
    ((goLib.unmarshalMap (input (exCreated "UFA-1"))).get exCreated_record_isSome)
    ((goLib.unmarshalMap exUpdate).get exUpdate_isSome)
    (Option.some_get exCreated_record_isSome).symm (Option.some_get exUpdate_isSome).symm with
  | ⟨stub1, h1, r1, h2, hr⟩ =>
    ⟨stub1, h1, r1, h2, (hr "netCharge").trans (by decide!),
      (hr "chargTolrence").trans (by decide!), (hr "active").trans (by decide!)⟩

/-! ### Round trip -/

/-- C10, as the specification states it, fails, in three ways. In the world
state where UFA-1 is already created the Master Index is initialised; creating
UFA-1 again as SELLER with a valid payload lists it twice. After `Init`, creating
the agreement whose number is UFA- followed by the byte 0xFF, which is not
well-formed UTF-8, lists UFA- followed by the three bytes of U+FFFD, as which
`json.Marshal` writes the byte: the number created occurs no time in the Master
Index. And creating the agreement whose number is `ALL_RECS` stores the payload
over the Master Index, which `getAllUFA` can then not read. -/
theorem createUFA_again_listed_twice :
    validateNewUFA goLib "SELLER" exPayload = "" ∧
    getAllRecordsList goLib exCreated = some ["UFA-1"] ∧
    getAllRecordsList goLib (createUFA goLib exCreated "UFA-1" "SELLER" exPayload).1 =
      some ["UFA-1", "UFA-1"] ∧
    List.count "UFA-1" ["UFA-1", "UFA-1"] = 2 ∧
    getAllRecordsList goLib exInit = some [] ∧
    ¬ Utf8 "UFA-\xff" ∧
    getAllRecordsList goLib (createUFA goLib exInit "UFA-\xff" "SELLER" exPayload).1 =
      some ["UFA-\xef\xbf\xbd"] ∧
    List.count "UFA-\xff" ["UFA-\xef\xbf\xbd"] = 0 ∧
    getAllRecordsList goLib (createUFA goLib exInit ALL_ELEMENENTS "SELLER" exPayload).1 = none ∧
    (getAllUFA goLib (createUFA goLib exInit ALL_ELEMENENTS "SELLER" exPayload).1).toOption =
      none := by
  decide!

/-- C10, amended. For a standard library with the laws `ListLaws`: when the
Master Index holds the list `index`, the number `N` is well-formed UTF-8, is not
`ALL_RECS` and is not in `index`, and `validateNewUFA "SELLER" P` is empty, then
after `createUFA N "SELLER" P`, `getUFADetails N` returns the JSON text of the
decoded payload, the Master Index read by `getAllUFA` is `index` with `N`
appended, in which `N` occurs exactly once, and `getAllUFA` returns the records
of that list. -/
theorem createUFA_round_trip (L : GoLib) (hL : ListLaws L) (stub : Store) (N P : String)
    (index : List String)
    (hval : validateNewUFA L "SELLER" P = "")
    (hN : N ≠ ALL_ELEMENENTS)
    (hutf : Utf8 N)
    (hindex : HoldsList L stub ALL_ELEMENENTS index)
    (hnew : N ∉ index) :
    getUFADetails L (createUFA L stub N "SELLER" P).1 N = L.marshalMap (L.unmarshalMap P) ∧
    getAllRecordsList L (createUFA L stub N "SELLER" P).1 = some (index ++ [N]) ∧
    List.count N (index ++ [N]) = 1 ∧
    getAllUFA L (createUFA L stub N "SELLER" P).1 =
      .ok (L.marshalMaps ((index ++ [N]).map (fun n =>
        L.unmarshalMap (input ((createUFA L stub N "SELLER" P).1 n))))) := by
  obtain ⟨b, hb, hdec⟩ := hindex
  have hrt := appended_round_trip L hL b index N hdec hutf
  have hne : N ≠ UFA_TRXN_PREFIX ++ N := fun h => trxn_key_ne_self N h.symm
  have hall : ALL_ELEMENENTS ≠ UFA_TRXN_PREFIX ++ N := fun h => trxn_key_ne_all N h.symm
  have hm : updateMasterRecords L (PutState stub N P) N =
      (PutState (PutState stub N P) ALL_ELEMENENTS (L.marshalList (index ++ [N])), false) := by
    simp [updateMasterRecords, GetState, PutState, Ne.symm hN, hb, input, hdec]
  have hrec : (createUFA L stub N "SELLER" P).1 N = some P := by
    rw [createUFA_store L stub N "SELLER" P hval, appendUFATransactionHistory_other L _ N P N hne,
      hm]
    simp [PutState, hN]
  have hidx : (createUFA L stub N "SELLER" P).1 ALL_ELEMENENTS =
      some (L.marshalList (index ++ [N])) := by
    rw [createUFA_store L stub N "SELLER" P hval,
      appendUFATransactionHistory_other L _ N P ALL_ELEMENENTS hall, hm]
    simp [PutState]
  have hlist : getAllRecordsList L (createUFA L stub N "SELLER" P).1 = some (index ++ [N]) := by
    simp [getAllRecordsList, GetState, hidx, input, hrt]
  refine ⟨?_, hlist, ?_, ?_⟩
  · simp [getUFADetails, GetState, hrec, input]
  · simp [List.count_append, List.count_eq_zero_of_not_mem hnew]
  · simp only [getAllUFA, hlist, GetState]

/-- C10, amended, at a concrete input: the first agreement after `Init`. -/
theorem createUFA_round_trip_witness :
    getUFADetails goLib (createUFA goLib exInit "UFA-1" "SELLER" exPayload).1 "UFA-1" =
      goLib.marshalMap (goLib.unmarshalMap exPayload) ∧
    getAllRecordsList goLib (createUFA goLib exInit "UFA-1" "SELLER" exPayload).1 =
      some ([] ++ ["UFA-1"]) ∧
    List.count "UFA-1" ([] ++ ["UFA-1"]) = 1 ∧
    getAllUFA goLib (createUFA goLib exInit "UFA-1" "SELLER" exPayload).1 =
      .ok (goLib.marshalMaps (([] ++ ["UFA-1"]).map (fun n =>
        goLib.unmarshalMap (input ((createUFA goLib exInit "UFA-1" "SELLER" exPayload).1 n))))) :=
  createUFA_round_trip goLib goLib_listLaws exInit "UFA-1" exPayload [] (by decide!) (by decide!)
    (by decide!) ⟨"[]", by decide!, by decide!⟩ (by decide!)

/-! ### Order of the invoices, unparsable numbers -/

theorem F64.ne_comm (x y : F64) : F64.ne x y = F64.ne y x := by
  cases x <;> cases y <;> simp [F64.ne, eq_comm]
  rename_i s t
  cases s <;> cases t <;> rfl

theorem F64.round_ne_nan (q : ℚ) : F64.round q ≠ F64.nan := by
  unfold F64.round
  simp only
  split_ifs <;> simp

theorem F64.add_fin_ne_nan (x : F64) (q : ℚ) (hx : x ≠ F64.nan) :
    F64.add x (F64.fin q) ≠ F64.nan := by
  cases x with
  | nan => exact absurd rfl hx
  | inf s => simp [F64.add]
  | fin p => simpa [F64.add] using F64.round_ne_nan (p + q)

theorem F64.ne_nan_of_ne_eq_false {x y : F64} (h : F64.ne x y = false) : x ≠ F64.nan := by
  intro hx
  subst hx
  simp [F64.ne] at h

theorem F64.lt_eq_false_iff_le {x m : F64} (hx : x ≠ F64.nan) (hm : m ≠ F64.nan) :
    F64.lt m x = false ↔ F64.le x m = true := by
  cases x <;> cases m <;> simp_all [F64.lt, F64.le]
  rename_i s t
  cases s <;> cases t <;> simp

/-- C13, as the specification states it, fails: in a world state where an invoice
for 2024-01 is listed for UFA-1, a pair of invoices of UFA-1 for 2024-01 with the
unequal amounts 5000 and 6000 is reported as already raised, not as unequal. -/
theorem validateInvoiceDetails_unequal_raised :
    validateNumber goLib (((goLib.unmarshalMaps exInvoicesUnequal).getD 0 none).index
      "invoiceAmt") = F64.fin 5000 ∧
    validateNumber goLib (((goLib.unmarshalMaps exInvoicesUnequal).getD 1 none).index
      "invoiceAmt") = F64.fin 6000 ∧
    F64.ne (F64.fin 5000) (F64.fin 6000) = true ∧
    validateInvoiceDetails goLib exInvoiced exInvoicesUnequal =
      "\nInvoice all already raised for 2024-01" := by
  decide!

/-- C13, amended. Let `a` and `b` be two invoice entries whose amounts, as
`validateNumber` reads them, are unequal. For a payload that starts with `a`, `b`,
when no listed invoice of the agreement of `a` has the billing period of `a`,
`validateInvoiceDetails` returns "Customer and Vendor Invoice Amounts are not
same"; and so it does for a payload that starts with `b`, `a`, when no listed
invoice of the agreement of `b` has the billing period of `b`. -/
theorem validateInvoiceDetails_unequal (L : GoLib) (stub : Store) (a b : GoMap)
    (hne : F64.ne (validateNumber L (a.index "invoiceAmt"))
      (validateNumber L (b.index "invoiceAmt")) = true) :
    (∀ payload rest, L.unmarshalMaps payload = a :: b :: rest →
      ¬ PeriodRaised L stub (a.index "ufanumber") (a.index "billingPeriod") →
      validateInvoiceDetails L stub payload =
        "\nCustomer and Vendor Invoice Amounts are not same") ∧
    (∀ payload rest, L.unmarshalMaps payload = b :: a :: rest →
      ¬ PeriodRaised L stub (b.index "ufanumber") (b.index "billingPeriod") →
      validateInvoiceDetails L stub payload =
        "\nCustomer and Vendor Invoice Amounts are not same") := by
  constructor
  · intro payload rest hl hnot
    rw [validateInvoiceDetails_cons L stub payload a b rest hl]
    simp [checkInvoicesRaised_eq_false L stub _ _ hnot, hne]
  · intro payload rest hl hnot
    rw [validateInvoiceDetails_cons L stub payload b a rest hl]
    rw [F64.ne_comm] at hne
    simp [checkInvoicesRaised_eq_false L stub _ _ hnot, hne]

/-- C13, amended, at a concrete input: for UFA-1 with no listed invoice, the pair
with amounts 5000 and 6000 and the pair with amounts 6000 and 5000 are both
reported as unequal. -/
theorem validateInvoiceDetails_unequal_witness :
    validateInvoiceDetails goLib exCreated exInvoicesUnequal =
      "\nCustomer and Vendor Invoice Amounts are not same" ∧
    validateInvoiceDetails goLib exCreated exInvoicesSwapped =
      "\nCustomer and Vendor Invoice Amounts are not same" :=
  ⟨(validateInvoiceDetails_unequal goLib exCreated
      ((goLib.unmarshalMaps exInvoicesUnequal).getD 0 none)
      ((goLib.unmarshalMaps exInvoicesUnequal).getD 1 none) (by decide!)).1
      exInvoicesUnequal _ (eq_cons_cons _ none (by decide!))
      (fun h => absurd ((checkInvoicesRaised_iff goLib exCreated _ _).mpr h) (by decide!)),
    (validateInvoiceDetails_unequal goLib exCreated
      ((goLib.unmarshalMaps exInvoicesSwapped).getD 1 none)
      ((goLib.unmarshalMaps exInvoicesSwapped).getD 0 none) (by decide!)).2
      exInvoicesSwapped _ (eq_cons_cons _ none (by decide!))
      (fun h => absurd ((checkInvoicesRaised_iff goLib exCreated _ _).mpr h) (by decide!))⟩

/-- C20, as it is stated, fails: the agreement UFA-1 created with the texts NaN
has the maximum charge NaN and no raised total; for a pair of invoices of 1040
each the test `1040 + (-1) <= maxCharge` is false, and the pair is accepted,
because the test the code makes, `maxCharge < 1040 + (-1)`, is false as well. -/
theorem validateInvoiceDetails_accepts_NaN_cap :
    maxCharge goLib (goLib.unmarshalMap (input (exCreatedNaN "UFA-1"))) = F64.nan ∧
    goLib.parseFloat ((goLib.unmarshalMap (input (exCreatedNaN "UFA-1"))).index
      "raisedInvTotal") = none ∧
    checkInvoicesRaised goLib exCreatedNaN "UFA-1" "2024-01" = false ∧
    validateNumber goLib (((goLib.unmarshalMaps exInvoices).getD 0 none).index "invoiceAmt") =
      F64.fin 1040 ∧
    validateNumber goLib (((goLib.unmarshalMaps exInvoices).getD 1 none).index "invoiceAmt") =
      F64.fin 1040 ∧
    F64.le (F64.add (F64.fin 1040) (F64.fin (-1))) F64.nan = false ∧
    validateInvoiceDetails goLib exCreatedNaN exInvoices = "" := by
  decide!

/-- C20, amended. For a payload whose first two entries are `a` and `b`: when both amounts
fail to parse, `validateNumber` reads each as -1, they compare equal, and the
message is not "Customer and Vendor Invoice Amounts are not same"; and when the
raised total of the stored agreement is absent or fails to parse, the billing
period is not raised and the amounts are equal, the pair is accepted exactly when
the float64 test `maxCharge < a + (-1)` is false, which for a `maxCharge` that is
not NaN is `a + (-1) <= maxCharge`. -/
theorem validateInvoiceDetails_unparsable (L : GoLib) (stub : Store) (payload : String)
    (a b : GoMap) (rest : List GoMap) (hl : L.unmarshalMaps payload = a :: b :: rest) :
    (L.parseFloat (a.index "invoiceAmt") = none → L.parseFloat (b.index "invoiceAmt") = none →
      validateNumber L (a.index "invoiceAmt") = F64.fin (-1) ∧
      validateNumber L (b.index "invoiceAmt") = F64.fin (-1) ∧
      F64.ne (validateNumber L (a.index "invoiceAmt")) (validateNumber L (b.index "invoiceAmt"))
        = false ∧
      validateInvoiceDetails L stub payload ≠
        "\nCustomer and Vendor Invoice Amounts are not same") ∧
    (L.parseFloat ((L.unmarshalMap (input (stub (a.index "ufanumber")))).index "raisedInvTotal")
        = none →
      ¬ PeriodRaised L stub (a.index "ufanumber") (a.index "billingPeriod") →
      F64.ne (validateNumber L (a.index "invoiceAmt")) (validateNumber L (b.index "invoiceAmt"))
        = false →
      (validateInvoiceDetails L stub payload = "" ↔
        F64.lt (maxCharge L (L.unmarshalMap (input (stub (a.index "ufanumber")))))
          (F64.add (validateNumber L (a.index "invoiceAmt")) (F64.fin (-1))) = false) ∧
      (maxCharge L (L.unmarshalMap (input (stub (a.index "ufanumber")))) ≠ F64.nan →
        (validateInvoiceDetails L stub payload = "" ↔
          F64.le (F64.add (validateNumber L (a.index "invoiceAmt")) (F64.fin (-1)))
            (maxCharge L (L.unmarshalMap (input (stub (a.index "ufanumber"))))) = true))) := by
  rw [validateInvoiceDetails_cons L stub payload a b rest hl]
  constructor
  · intro ha hb
    have hne : F64.ne (validateNumber L (a.index "invoiceAmt"))
        (validateNumber L (b.index "invoiceAmt")) = false := by
      simp [validateNumber, ha, hb, F64.ne]
    refine ⟨by simp [validateNumber, ha], by simp [validateNumber, hb], hne, ?_⟩
    rw [hne]
    simp only [Bool.false_eq_true, if_false]
    split_ifs
    · exact raised_ne_not_same _
    · decide
    · decide
  · intro hr hnot heq
    have hraised : validateNumber L ((L.unmarshalMap (input (stub (a.index "ufanumber")))).index
        "raisedInvTotal") = F64.fin (-1) := by
      simp [validateNumber, hr]
    have key : (if checkInvoicesRaised L stub (a.index "ufanumber") (a.index "billingPeriod") = true
        then "\nInvoice all already raised for " ++ a.index "billingPeriod"
        else if F64.ne (validateNumber L (a.index "invoiceAmt"))
            (validateNumber L (b.index "invoiceAmt")) = true then
          "\nCustomer and Vendor Invoice Amounts are not same"
        else if F64.lt (maxCharge L (L.unmarshalMap (input (stub (a.index "ufanumber")))))
            (F64.add (validateNumber L (a.index "invoiceAmt"))
              (validateNumber L ((L.unmarshalMap (input (stub (a.index "ufanumber")))).index
                "raisedInvTotal"))) = true then
          "\nTotal invoice amount exceded"
        else "") = "" ↔
        F64.lt (maxCharge L (L.unmarshalMap (input (stub (a.index "ufanumber")))))
          (F64.add (validateNumber L (a.index "invoiceAmt")) (F64.fin (-1))) = false := by
      rw [checkInvoicesRaised_eq_false L stub _ _ hnot, heq, hraised]
      cases h : F64.lt (maxCharge L (L.unmarshalMap (input (stub (a.index "ufanumber")))))
          (F64.add (validateNumber L (a.index "invoiceAmt")) (F64.fin (-1))) <;> simp
    refine ⟨key, ?_⟩
    intro hm
    rw [key]
    exact F64.lt_eq_false_iff_le
      (F64.add_fin_ne_nan _ _ (F64.ne_nan_of_ne_eq_false heq)) hm

/-- C20, amended, at concrete inputs, for UFA-1 created with net charge 1000, tolerance 5
and no raised total: a pair whose amounts are the text abc and an absent amount is
not reported as unequal, and a pair of 1040 is accepted, 1040 + (-1) not being
above the maximum charge 1050. -/
theorem validateInvoiceDetails_unparsable_witness :
    validateInvoiceDetails goLib exCreated exInvoicesUnparsable ≠
      "\nCustomer and Vendor Invoice Amounts are not same" ∧
    validateInvoiceDetails goLib exCreated exInvoices = "" :=
  ⟨((validateInvoiceDetails_unparsable goLib exCreated exInvoicesUnparsable _ _ _
      (eq_cons_cons _ none (by decide!))).1 (by decide!) (by decide!)).2.2.2,
    (((validateInvoiceDetails_unparsable goLib exCreated exInvoices _ _ _
      (eq_cons_cons _ none (by decide!))).2 (by decide!)
      (fun h => absurd ((checkInvoicesRaised_iff goLib exCreated _ _).mpr h) (by decide!))
      (by decide!)).1).mpr (by decide!)⟩

/-! ### Messages of validateNewUFA -/

theorem contains_out_of_range (msg1 : String) :
    Contains (msg1 ++ "\nTolerence is out of range. Should be between 0 and 10")
      "Tolerence is out of range" := by
  refine ⟨msg1 ++ "\n", ". Should be between 0 and 10", ?_⟩
  have h : "\nTolerence is out of range. Should be between 0 and 10" =
      "\n" ++ ("Tolerence is out of range" ++ ". Should be between 0 and 10") := by decide
  rw [h, String.append_assoc, String.append_assoc]

/-- The tolerance bounds of `validateNewUFA`, for the numbers and the texts that
fail to parse. For a role SELLER or BUYER: when the field `chargTolrence` parses to 0,
or parses to 10.5, or fails to parse, the message of `validateNewUFA` contains
"Tolerence is out of range"; when the field `netCharge` parses to a number
greater than 0 and `chargTolrence` parses to 10, the message is empty. -/
theorem validateNewUFA_tolerance_bounds (L : GoLib) (who payload : String)
    (hwho : who = "SELLER" ∨ who = "BUYER") :
    (L.parseFloat ((L.unmarshalMap payload).index "chargTolrence") = some (F64.fin 0) →
      Contains (validateNewUFA L who payload) "Tolerence is out of range") ∧
    (L.parseFloat ((L.unmarshalMap payload).index "chargTolrence") = some (F64.fin (21 / 2)) →
      Contains (validateNewUFA L who payload) "Tolerence is out of range") ∧
    (L.parseFloat ((L.unmarshalMap payload).index "chargTolrence") = none →
      Contains (validateNewUFA L who payload) "Tolerence is out of range") ∧
    (∀ n, L.parseFloat ((L.unmarshalMap payload).index "netCharge") = some n →
      F64.gt n (F64.fin 0) = true →
      L.parseFloat ((L.unmarshalMap payload).index "chargTolrence") = some (F64.fin 10) →
      validateNewUFA L who payload = "") := by
  refine ⟨?_, ?_, ?_, ?_⟩
  · intro h
    have e : validateNewUFA L who payload =
        (if F64.le (validateNumber L ((L.unmarshalMap payload).index "netCharge")) (F64.fin 0)
          then "\nInvalid net charge" else "") ++
        "\nTolerence is out of range. Should be between 0 and 10" := by
      simp [validateNewUFA, hwho, validateNumber, h, F64.le, F64.gt, F64.lt]
    rw [e]
    exact contains_out_of_range _
  · intro h
    have e : validateNewUFA L who payload =
        (if F64.le (validateNumber L ((L.unmarshalMap payload).index "netCharge")) (F64.fin 0)
          then "\nInvalid net charge" else "") ++
        "\nTolerence is out of range. Should be between 0 and 10" := by
      simp [validateNewUFA, hwho, validateNumber, h, F64.le, F64.gt, F64.lt]
      norm_num
    rw [e]
    exact contains_out_of_range _
  · intro h
    have e : validateNewUFA L who payload =
        (if F64.le (validateNumber L ((L.unmarshalMap payload).index "netCharge")) (F64.fin 0)
          then "\nInvalid net charge" else "") ++
        "\nTolerence is out of range. Should be between 0 and 10" := by
      simp [validateNewUFA, hwho, validateNumber, h, F64.le, F64.gt, F64.lt]
    rw [e]
    exact contains_out_of_range _
  · intro n hn hpos hx
    have h10a : F64.le (F64.fin 10) (F64.fin 0) = false := by
      simp [F64.le]
    have h10b : F64.gt (F64.fin 10) (F64.fin 10) = false := by
      simp [F64.gt, F64.lt]
    simp [validateNewUFA, hwho, validateNumber, hn, hx, F64.le_eq_false_of_gt hpos, h10a, h10b]

/-- The tolerance bounds at concrete inputs: as SELLER, with net charge 1000, the tolerances 0,
10.5 and abc are out of range and the tolerance 10 is accepted. -/
theorem validateNewUFA_tolerance_bounds_witness :
    Contains (validateNewUFA goLib "SELLER" exPayloadTolZero) "Tolerence is out of range" ∧
    Contains (validateNewUFA goLib "SELLER" exPayloadTolHigh) "Tolerence is out of range" ∧
    Contains (validateNewUFA goLib "SELLER" exPayloadTolText) "Tolerence is out of range" ∧
    validateNewUFA goLib "SELLER" exPayloadTen = "" :=
  ⟨(validateNewUFA_tolerance_bounds goLib "SELLER" exPayloadTolZero (Or.inl rfl)).1 (by decide!),
    (validateNewUFA_tolerance_bounds goLib "SELLER" exPayloadTolHigh (Or.inl rfl)).2.1
      (by decide!),
    (validateNewUFA_tolerance_bounds goLib "SELLER" exPayloadTolText (Or.inl rfl)).2.2.1
      (by decide!),
    (validateNewUFA_tolerance_bounds goLib "SELLER" exPayloadTen (Or.inl rfl)).2.2.2
      (F64.fin 1000) (by decide!) (by decide!) (by decide!)⟩

theorem netChargeViolated_eq (L : GoLib) (payload : String) :
    netChargeViolated L payload =
      F64.le (validateNumber L ((L.unmarshalMap payload).index "netCharge")) (F64.fin 0) := by
  unfold netChargeViolated validateNumber
  split <;> rename_i h <;> simp [h, F64.le]

theorem toleranceViolated_eq (L : GoLib) (payload : String) :
    toleranceViolated L payload =
      (F64.le (validateNumber L ((L.unmarshalMap payload).index "chargTolrence")) (F64.fin 0) ||
        F64.gt (validateNumber L ((L.unmarshalMap payload).index "chargTolrence")) (F64.fin 10)) := by
  unfold toleranceViolated validateNumber
  split <;> rename_i h <;> simp [h, F64.le]

/-- C14 fails on the code: for the role SELLER, net charge 1000 and the tolerance
text NaN, which is not a number and which `strconv.ParseFloat` reads as the
float64 NaN without an error, both tests of the tolerance are false and the
message is empty: it does not contain "Tolerence is out of range". -/
theorem validateNewUFA_accepts_NaN_tolerance :
    goLib.parseFloat ((goLib.unmarshalMap exPayloadTolNaN).index "chargTolrence") =
      some F64.nan ∧
    F64.le F64.nan (F64.fin 0) = false ∧ F64.gt F64.nan (F64.fin 10) = false ∧
    validateNewUFA goLib "SELLER" exPayloadTolNaN = "" := by
  decide!

/-- C15, as the specification states it, fails: for the role ADMIN and a payload
whose net charge is 0, two rules are violated and the message has one line, the
one of the role. -/
theorem validateNewUFA_unauthorized_one_line :
    decide ("ADMIN" = "SELLER" ∨ "ADMIN" = "BUYER") = false ∧
    netChargeViolated goLib exPayloadBadCharge = true ∧
    validateNewUFA goLib "ADMIN" exPayloadBadCharge =
      "\nUser is not authorized to create a UFA" ∧
    lineCount (validateNewUFA goLib "ADMIN" exPayloadBadCharge) = 1 := by
  decide!

/-- C15, amended. For a role other than SELLER and BUYER the message of
`validateNewUFA` is the one line "User is not authorized to create a UFA",
whatever the payload. For the role SELLER or BUYER it is the line "Invalid net
charge" if the net charge rule is violated, followed by the line "Tolerence is out
of range. Should be between 0 and 10" if the tolerance rule is violated; the
number of lines is the number of violated rules among these two. -/
theorem validateNewUFA_message (L : GoLib) (who payload : String) :
    validateNewUFA L who payload =
      (if who = "SELLER" ∨ who = "BUYER" then
        (if netChargeViolated L payload then "\nInvalid net charge" else "") ++
        (if toleranceViolated L payload then
          "\nTolerence is out of range. Should be between 0 and 10" else "")
      else "\nUser is not authorized to create a UFA") ∧
    lineCount (validateNewUFA L who payload) =
      (if who = "SELLER" ∨ who = "BUYER" then
        (if netChargeViolated L payload then 1 else 0) +
        (if toleranceViolated L payload then 1 else 0)
      else 1) := by
  have e : validateNewUFA L who payload =
      (if who = "SELLER" ∨ who = "BUYER" then
        (if netChargeViolated L payload then "\nInvalid net charge" else "") ++
        (if toleranceViolated L payload then
          "\nTolerence is out of range. Should be between 0 and 10" else "")
      else "\nUser is not authorized to create a UFA") := by
    by_cases hwho : who = "SELLER" ∨ who = "BUYER"
    · simp only [validateNewUFA, if_pos hwho, netChargeViolated_eq, toleranceViolated_eq]
    · simp [validateNewUFA, if_neg hwho]
  refine ⟨e, ?_⟩
  rw [e]
  by_cases hwho : who = "SELLER" ∨ who = "BUYER"
  · simp only [if_pos hwho]
    cases netChargeViolated L payload <;> cases toleranceViolated L payload <;> decide
  · simp only [if_neg hwho]
    decide

/-- C16. For a role that is neither the text SELLER nor the text BUYER,
`validateNewUFA` returns the non-empty message "User is not authorized to create
a UFA", which contains "not authorized", and `createUFA` returns the validation
error and leaves the world state as it was. -/
theorem validateNewUFA_unauthorized (L : GoLib) (stub : Store) (N who payload : String)
    (h1 : who ≠ "SELLER") (h2 : who ≠ "BUYER") :
    validateNewUFA L who payload = "\nUser is not authorized to create a UFA" ∧
    validateNewUFA L who payload ≠ "" ∧
    Contains (validateNewUFA L who payload) "not authorized" ∧
    createUFA L stub N who payload =
      (stub, some "Validation failure: \nUser is not authorized to create a UFA") := by
  have e : validateNewUFA L who payload = "\nUser is not authorized to create a UFA" := by
    simp [validateNewUFA, h1, h2]
  refine ⟨e, ?_, ?_, ?_⟩
  · rw [e]
    decide
  · rw [e]
    exact ⟨"\nUser is ", " to create a UFA", by decide⟩
  · have hne : validateNewUFA L who payload ≠ "" := by
      rw [e]
      decide
    simp only [createUFA, if_neg hne, e]
    rfl

/-- C16 at a concrete input: the role seller, in lower case, with a valid payload. -/
theorem validateNewUFA_unauthorized_witness :
    validateNewUFA goLib "seller" exPayload = "\nUser is not authorized to create a UFA" ∧
    validateNewUFA goLib "seller" exPayload ≠ "" ∧
    Contains (validateNewUFA goLib "seller" exPayload) "not authorized" ∧
    createUFA goLib exInit "UFA-1" "seller" exPayload =
      (exInit, some "Validation failure: \nUser is not authorized to create a UFA") :=
  validateNewUFA_unauthorized goLib exInit "UFA-1" "seller" exPayload (by decide) (by decide)

/-! ### getAllUFA -/

/-- C17, as the specification states it, fails: `createUFA` accepts and stores
as UFA-5 a payload with a boolean member; `json.Unmarshal` of these bytes into a
map of strings returns an error, and the record `getAllUFA` returns for UFA-5 is
not an empty structure: it has the members that are strings, and the boolean
member with the empty string. -/
theorem getAllUFA_keeps_partial_record :
    validateNewUFA goLib "SELLER" exPayloadPartial = "" ∧
    exCreatedPartial "UFA-5" = some exPayloadPartial ∧
    getAllRecordsList goLib exCreatedPartial = some ["UFA-5"] ∧
    GoStd.unmarshalMapError exPayloadPartial = true ∧
    (goLib.unmarshalMap exPayloadPartial).index "netCharge" = "1000" ∧
    (getAllUFA goLib exCreatedPartial).toOption =
      some "[\x7b\"active\":\"\",\"chargTolrence\":\"5\",\"netCharge\":\"1000\"\x7d]" := by
  decide!

/-- C17, amended. When the Master Index holds the list `l`, `getAllUFA` returns
without error the JSON text of a sequence of as many records as `l` has numbers,
in the order of `l`, the i-th being the map that `json.Unmarshal` leaves for the
bytes stored under the i-th number (the empty input for a number that is not
stored), whatever error it returns; when the empty input leaves a map nil, the
record of a number that is not stored is the nil map. In any world state,
`getAllUFA` returns an error only when the bytes of the Master Index (the empty
input when the key is unset) do not decode to a list. -/
theorem getAllUFA_enumerates (L : GoLib) (stub : Store) (l : List String)
    (h : HoldsList L stub ALL_ELEMENENTS l) :
    getAllUFA L stub =
      .ok (L.marshalMaps (l.map (fun n => L.unmarshalMap (input (stub n))))) ∧
    (l.map (fun n => L.unmarshalMap (input (stub n)))).length = l.length ∧
    (∀ i (hi : i < l.length),
      (l.map (fun n => L.unmarshalMap (input (stub n)))).get? i =
        some (L.unmarshalMap (input (stub (l.get ⟨i, hi⟩))))) ∧
    (L.unmarshalMap "" = none →
      ∀ n ∈ l, stub n = none → L.unmarshalMap (input (stub n)) = none) ∧
    (∀ (stub2 : Store) (e : String), getAllUFA L stub2 = .error e →
      L.unmarshalList (input (stub2 ALL_ELEMENENTS)) = none) := by
  obtain ⟨b, hb, hdec⟩ := h
  refine ⟨?_, by simp, ?_, ?_, ?_⟩
  · simp [getAllUFA, getAllRecordsList, GetState, hb, input, hdec]
  · intro i hi
    simp [List.get?_eq_get, hi]
  · intro hnil n _ hn
    simpa [hn, input] using hnil
  · intro stub2 e he
    unfold getAllUFA getAllRecordsList at he
    simp only [GetState] at he
    split at he
    · assumption
    · cases he

/-- C17, amended, at a concrete input: the Master Index lists UFA-1 and UFA-404,
only UFA-1 is stored; `getAllUFA` returns two records, the second the nil map,
which is written null. -/
theorem getAllUFA_enumerates_witness :
    getAllUFA goLib exTwoListed =
      .ok "[\x7b\"chargTolrence\":\"5\",\"netCharge\":\"1000\"\x7d,null]" ∧
    exTwoListed "UFA-404" = none ∧
    goLib.unmarshalMap (input (exTwoListed "UFA-404")) = none :=
  have h := getAllUFA_enumerates goLib exTwoListed ["UFA-1", "UFA-404"]
    ⟨"[\"UFA-1\",\"UFA-404\"]", by decide!, by decide!⟩
  ⟨(h.1).trans (congrArg Except.ok (by decide!)), by decide!,
    h.2.2.2.1 (by decide!) "UFA-404" (by decide!) (by decide!)⟩

/-! ### Panics, the command surface -/

/-- C18 fails on the code: when the bytes stored under the agreement number
decode to the nil map (no record is stored, or the bytes are not an object) and
the update payload decodes to a map with at least one entry, `updateRecord`
assigns into the nil map and `updateUFA` panics; so it does in the world state
after `Init` for the number UFA-9 and the update of the net charge to 2000. -/
theorem updateUFA_panics_without_record :
    (∀ (L : GoLib) (stub : Store) (N payload : String),
      L.unmarshalMap (input (stub N)) = none → (L.unmarshalMap payload).entries ≠ [] →
      (updateUFA L stub N payload).isNone = true) ∧
    exInit "UFA-9" = none ∧
    (updateUFA goLib exInit "UFA-9" exUpdate).isNone = true := by
  refine ⟨?_, by decide!, by decide!⟩
  intro L stub N payload h1 h2
  cases hes : (L.unmarshalMap payload).entries with
  | nil => exact absurd hes h2
  | cons e es =>
    have hr : updateRecord L none (L.unmarshalMap payload) = none := by
      simp only [updateRecord, hes, List.foldlM_cons, GoMap.assign]
      rfl
    simp [updateUFA, GetState, h1, hr]

/-- C19 fails on the code: `Invoke` with the function createUFA calls `createUFA`
and discards what it returns; it returns nil bytes and a nil error also when
`createUFA` returned the validation error. -/
theorem Invoke_createUFA_returns_nil (L : GoLib) (stub : Store) (N who payload : String) :
    Invoke L stub "createUFA" [N, who, payload] =
      some ((createUFA L stub N who payload).1, none, none) ∧
    (validateNewUFA L who payload ≠ "" →
      (createUFA L stub N who payload).2 =
        some ("Validation failure: " ++ validateNewUFA L who payload)) := by
  constructor
  · simp [Invoke]
  · intro h
    simp [createUFA, h]

/-! ### The Audit Ledger -/

theorem trxn_key_inj {M N : String} (h : UFA_TRXN_PREFIX ++ M = UFA_TRXN_PREFIX ++ N) : M = N := by
  have h2 := congrArg String.data h
  simp only [String.data_append, List.append_cancel_left_eq] at h2
  exact String.ext h2

theorem ledger_congr (L : GoLib) (s1 s2 : Store) (M : String)
    (h : s1 (UFA_TRXN_PREFIX ++ M) = s2 (UFA_TRXN_PREFIX ++ M)) : ledger L s1 M = ledger L s2 M := by
  simp [ledger, h]

theorem ledger_append_self (L : GoLib) (stub : Store) (N p : String) (before : List String)
    (hb : ledger L stub N = some before)
    (hrt : L.unmarshalList (L.marshalList (before ++ [p])) = some (before ++ [p])) :
    ledger L (appendUFATransactionHistory L stub N p).1 N = some (before ++ [p]) := by
  unfold ledger at hb
  unfold appendUFATransactionHistory
  simp only [GetState]
  cases hs : stub (UFA_TRXN_PREFIX ++ N) with
  | none =>
    rw [hs] at hb
    simp only [Option.some.injEq] at hb
    subst hb
    simpa [ledger, PutState] using hrt
  | some b =>
    rw [hs] at hb
    simp only at hb
    simp only [hb]
    simpa [ledger, PutState] using hrt

theorem ledger_append_other (L : GoLib) (stub : Store) (N p M : String) (hMN : M ≠ N) :
    ledger L (appendUFATransactionHistory L stub N p).1 M = ledger L stub M := by
  apply ledger_congr
  apply appendUFATransactionHistory_other
  intro h
  exact hMN (trxn_key_inj h)

theorem ledger_appended_round_trip (L : GoLib) (hL : ListLaws L) (stub : Store)
    (M payload : String) (before : List String) (hb : ledger L stub M = some before)
    (hp : Utf8 payload) :
    L.unmarshalList (L.marshalList (before ++ [payload])) = some (before ++ [payload]) := by
  apply hL.clean_round_trip
  intro s hs
  rcases List.mem_append.mp hs with h | h
  · unfold ledger at hb
    split at hb
    · cases hb
      cases h
    · exact hL.decoded_clean _ _ hb s h
  · have hsp : s = payload := by simpa using h
    subst hsp
    exact hp

/-- C11, as the specification states it, fails, in two ways. With UFA-1 created,
its Audit Ledger holds one entry; `createUFA` with the agreement number
`UFA_TRXN_HISTORY_UFA-1` and a valid payload writes the payload under this
number, which is the key of the Audit Ledger of UFA-1: the ledger is overwritten
by bytes that are not a list. And `updateUFA` of UFA-1 with the payload that is
the one byte 0xFF, which is not well-formed UTF-8, appends a last entry that is
not the payload: `json.Marshal` writes the byte as the escape of U+FFFD, which
reads back as three bytes. -/
theorem createUFA_overwrites_ledger :
    ledger goLib exCreated "UFA-1" = some [exPayload] ∧
    validateNewUFA goLib "SELLER" exPayload = "" ∧
    (createUFA goLib exCreated "UFA_TRXN_HISTORY_UFA-1" "SELLER" exPayload).1
      (UFA_TRXN_PREFIX ++ "UFA-1") = some exPayload ∧
    ledger goLib (createUFA goLib exCreated "UFA_TRXN_HISTORY_UFA-1" "SELLER" exPayload).1
      "UFA-1" = none ∧
    ¬ Utf8 "\xff" ∧
    (updateUFA goLib exCreated "UFA-1" "\xff").map (fun stub1 => ledger goLib stub1 "UFA-1") =
      some (some [exPayload, "\xef\xbf\xbd"]) := by
  decide!

/-- C11, amended. For a standard library with the laws `ListLaws`: let the Audit
Ledger of `M` hold the list `before` (the empty list when its key is unset), let
the agreement number `N` of the call not be the key of that ledger, and let the
payload be well-formed UTF-8 when the call is for `M` itself. After
`createUFA N who payload` the ledger of `M` holds a list of which `before` is a
prefix: `before` with the payload appended last when `M = N` and the validation
passes, `before` itself otherwise. After an `updateUFA N who payload` that
returns, the ledger of `M` holds `before` with the payload appended last when
`M = N`, and `before` itself otherwise. -/
theorem ledger_append_only (L : GoLib) (hL : ListLaws L) (stub : Store)
    (N who payload M : String) (before : List String)
    (hb : ledger L stub M = some before)
    (hNM : N ≠ UFA_TRXN_PREFIX ++ M)
    (hutf : M = N → Utf8 payload) :
    (∃ after, ledger L (createUFA L stub N who payload).1 M = some after ∧ before <+: after ∧
      (M = N → validateNewUFA L who payload = "" → after = before ++ [payload]) ∧
      (M ≠ N ∨ validateNewUFA L who payload ≠ "" → after = before)) ∧
    (∀ stub1, updateUFA L stub N payload = some stub1 →
      ∃ after, ledger L stub1 M = some after ∧ before <+: after ∧
        (M = N → after = before ++ [payload]) ∧ (M ≠ N → after = before)) := by
  have hK : UFA_TRXN_PREFIX ++ M ≠ N := fun h => hNM h.symm
  have hKall : UFA_TRXN_PREFIX ++ M ≠ ALL_ELEMENENTS := trxn_key_ne_all M
  constructor
  · by_cases hval : validateNewUFA L who payload = ""
    · have hs2 : ledger L (updateMasterRecords L (PutState stub N payload) N).1 M = some before := by
        rw [← hb]
        apply ledger_congr
        rw [updateMasterRecords_other L _ N _ hKall]
        simp [PutState, hK]
      rw [createUFA_store L stub N who payload hval]
      by_cases hMN : M = N
      · have hrt := ledger_appended_round_trip L hL stub M payload before hb (hutf hMN)
        subst hMN
        refine ⟨before ++ [payload], ledger_append_self L _ M payload before hs2 hrt,
          List.prefix_append _ _, fun _ _ => rfl, ?_⟩
        intro h
        rcases h with h | h
        · exact absurd rfl h
        · exact absurd hval h
      · refine ⟨before, ?_, List.prefix_refl _, fun h => absurd h hMN, fun _ => rfl⟩
        rw [ledger_append_other L _ N payload M hMN, hs2]
    · refine ⟨before, ?_, List.prefix_refl _, fun _ h => absurd h hval, fun _ => rfl⟩
      simp [createUFA, hval, hb]
  · intro stub1 h
    unfold updateUFA at h
    simp only [GetState] at h
    split at h
    · cases h
    · rename_i updatedReord _
      simp only [Option.some.injEq] at h
      subst h
      have hs2 : ledger L (PutState stub N updatedReord) M = some before := by
        rw [← hb]
        apply ledger_congr
        simp [PutState, hK]
      by_cases hMN : M = N
      · have hrt := ledger_appended_round_trip L hL stub M payload before hb (hutf hMN)
        subst hMN
        exact ⟨before ++ [payload], ledger_append_self L _ M payload before hs2 hrt,
          List.prefix_append _ _, fun _ => rfl, fun h => absurd rfl h⟩
      · refine ⟨before, ?_, List.prefix_refl _, fun h => absurd h hMN, fun _ => rfl⟩
        rw [ledger_append_other L _ N payload M hMN, hs2]

theorem exUpdate_returns : (updateUFA goLib exCreated "UFA-1" exUpdate).isSome = true := by
  decide!

/-- C11, amended, at concrete inputs: the creation of UFA-1 after `Init` leaves
the ledger of UFA-1 with the payload as its only entry, and the update of UFA-1
then appends the update payload, not the merged record. -/
theorem ledger_append_only_witness :
    ledger goLib (createUFA goLib exInit "UFA-1" "SELLER" exPayload).1 "UFA-1" =
      some ([] ++ [exPayload]) ∧
    ledger goLib ((updateUFA goLib exCreated "UFA-1" exUpdate).get exUpdate_returns) "UFA-1" =
      some ([exPayload] ++ [exUpdate]) :=
  ⟨match (ledger_append_only goLib goLib_listLaws exInit "UFA-1" "SELLER" exPayload "UFA-1" []
      (by decide!) (by decide!) (fun _ => by decide!)).1 with
    | ⟨_, h1, _, h3, _⟩ => (h3 rfl (by decide!)) ▸ h1,
    match (ledger_append_only goLib goLib_listLaws exCreated "UFA-1" "SELLER" exUpdate "UFA-1"
      [exPayload] (by decide!) (by decide!) (fun _ => by decide!)).2 _
      (Option.some_get exUpdate_returns).symm with
    | ⟨_, h1, _, h3, _⟩ => (h3 rfl) ▸ h1⟩

/-! ### The Master Index -/

theorem GoStd.readMap_object (fuel : Nat) (cs : List Char) (r : Rec) (e : Bool)
    (rest : List Char) (h : readMap fuel cs = some (some r, e, rest)) :
    ∃ cs1, cs = '\x7b' :: cs1 := by
  unfold readMap at h
  split at h
  · cases h
  · exact ⟨_, rfl⟩
  · split at h <;> cases h

theorem GoStd.unmarshalMap_eq_some (b : String) (r : Rec) (h : unmarshalMap b = some r) :
    ∃ cs1, skipWs b.data = '\x7b' :: cs1 := by
  unfold unmarshalMap at h
  split at h
  · rename_i m e rest heq
    split at h
    · subst h
      exact readMap_object _ _ r e rest heq
    · cases h
  · cases h

theorem GoStd.unmarshalMap_of_unmarshalList (b : String) (h : unmarshalList b ≠ none) :
    unmarshalMap b = none := by
  cases hm : unmarshalMap b with
  | none => rfl
  | some r =>
    exfalso
    obtain ⟨cs1, hcs⟩ := unmarshalMap_eq_some b r hm
    apply h
    unfold unmarshalList
    rw [hcs]
    rfl

theorem GoStd.unmarshalList_marshalMap (m : GoMap) (l : List String)
    (h : unmarshalList (marshalMap m) = some l) : l = [] := by
  cases m with
  | none =>
    have : unmarshalList (marshalMap none) = some [] := by decide
    rw [this] at h
    exact (Option.some.inj h).symm
  | some r =>
    have h1 : isSpace '\x7b' = false := by decide
    simp [unmarshalList, marshalMap, mapText, skipWs, h1] at h

theorem goLib_laws : JsonLaws goLib where
  list_empty := by decide
  list_not_map := GoStd.unmarshalMap_of_unmarshalList
  map_text_not_list := GoStd.unmarshalList_marshalMap
  parse_empty := by decide!

theorem PutState_stored (stub : Store) (k v n : String) (h : stub n ≠ none) :
    PutState stub k v n ≠ none := by
  unfold PutState
  split <;> simp [h]

theorem updateMasterRecords_stored (L : GoLib) (stub : Store) (N n : String) (h : stub n ≠ none) :
    (updateMasterRecords L stub N).1 n ≠ none := by
  unfold updateMasterRecords
  simp only [GetState]
  split
  · exact h
  · exact PutState_stored _ _ _ _ h

theorem appendUFATransactionHistory_stored (L : GoLib) (stub : Store) (N p n : String)
    (h : stub n ≠ none) : (appendUFATransactionHistory L stub N p).1 n ≠ none := by
  unfold appendUFATransactionHistory
  simp only [GetState]
  split
  · exact h
  · exact PutState_stored _ _ _ _ h

theorem unmarshalMap_of_valid (L : GoLib) (hL : JsonLaws L) (who P : String)
    (hval : validateNewUFA L who P = "") : L.unmarshalMap P ≠ none := by
  intro hnil
  have hlen := congrArg String.length hval
  unfold validateNewUFA at hlen
  split_ifs at hlen with hwho
  · have hnum : validateNumber L "" = F64.fin (-1) := by
      simp [validateNumber, hL.parse_empty]
    have hle : F64.le (F64.fin (-1)) (F64.fin 0) = true := by
      simp [F64.le]
    simp only [hnil, GoMap.index, hnum, hle, if_true, String.length_append] at hlen
    have h19 : "\nInvalid net charge".length = 19 := by decide
    have h0 : "".length = 0 := rfl
    rw [h19, h0] at hlen
    omega
  · exact absurd hlen (by decide)

theorem IndexSound_createUFA (L : GoLib) (hL : JsonLaws L) (hL2 : ListLaws L) (stub : Store)
    (N who P : String) (h : IndexSound L stub) (hutf : Utf8 N) :
    IndexSound L (createUFA L stub N who P).1 := by
  by_cases hval : validateNewUFA L who P = ""
  · rw [createUFA_store L stub N who P hval]
    intro l hl n hn
    have hall : ALL_ELEMENENTS ≠ UFA_TRXN_PREFIX ++ N := fun h => trxn_key_ne_all N h.symm
    unfold getAllRecordsList at hl
    simp only [GetState] at hl
    rw [appendUFATransactionHistory_other L _ N P ALL_ELEMENENTS hall] at hl
    apply appendUFATransactionHistory_stored
    cases hdec : L.unmarshalList (input (PutState stub N P ALL_ELEMENENTS)) with
    | none =>
      have hs : updateMasterRecords L (PutState stub N P) N = (PutState stub N P, true) := by
        simp [updateMasterRecords, GetState, hdec]
      rw [hs] at hl
      simp only at hl
      rw [hdec] at hl
      cases hl
    | some l0 =>
      have hs : updateMasterRecords L (PutState stub N P) N =
          (PutState (PutState stub N P) ALL_ELEMENENTS (L.marshalList (l0 ++ [N])), false) := by
        simp [updateMasterRecords, GetState, hdec]
      rw [hs] at hl ⊢
      simp only [PutState, if_true, input, Option.getD_some] at hl
      by_cases hN : N = ALL_ELEMENENTS
      · exfalso
        have hP : L.unmarshalList P = some l0 := by
          simpa [PutState, hN, input] using hdec
        have hm := hL.list_not_map P (by simp [hP])
        exact unmarshalMap_of_valid L hL who P hval hm
      · have hne : ALL_ELEMENENTS ≠ N := fun h => hN h.symm
        have hdec0 : L.unmarshalList (input (stub ALL_ELEMENENTS)) = some l0 := by
          simpa [PutState, hne] using hdec
        rw [appended_round_trip L hL2 _ l0 N hdec0 hutf] at hl
        have hl2 : l = l0 ++ [N] := (Option.some.inj hl).symm
        subst hl2
        apply PutState_stored
        rcases List.mem_append.mp hn with hn0 | hnN
        · apply PutState_stored
          apply h l0 _ n hn0
          simpa [getAllRecordsList, GetState] using hdec0
        · have hnN2 : n = N := by simpa using hnN
          subst hnN2
          simp [PutState]
  · have hs : (createUFA L stub N who P).1 = stub := by
      simp [createUFA, hval]
    rw [hs]
    exact h

theorem IndexSound_updateUFA (L : GoLib) (hL : JsonLaws L) (stub stub1 : Store) (N P : String)
    (h : IndexSound L stub) (hu : updateUFA L stub N P = some stub1) : IndexSound L stub1 := by
  unfold updateUFA at hu
  simp only [GetState] at hu
  split at hu
  · cases hu
  · rename_i updatedReord hrec
    simp only [Option.some.injEq] at hu
    subst hu
    intro l hl n hn
    have hall : ALL_ELEMENENTS ≠ UFA_TRXN_PREFIX ++ N := fun h => trxn_key_ne_all N h.symm
    unfold getAllRecordsList at hl
    simp only [GetState] at hl
    rw [appendUFATransactionHistory_other L _ N P ALL_ELEMENENTS hall] at hl
    apply appendUFATransactionHistory_stored
    apply PutState_stored
    by_cases hN : N = ALL_ELEMENENTS
    · exfalso
      have hrec2 : ∃ m, updatedReord = L.marshalMap m := by
        unfold updateRecord at hrec
        split at hrec
        · cases hrec
        · exact ⟨_, (Option.some.inj hrec).symm⟩
      obtain ⟨m, rfl⟩ := hrec2
      have hl2 : L.unmarshalList (L.marshalMap m) = some l := by
        simpa [PutState, hN, input] using hl
      have := hL.map_text_not_list m l hl2
      subst this
      cases hn
    · apply h l _ n hn
      have hne : ALL_ELEMENENTS ≠ N := fun h => hN h.symm
      simpa [getAllRecordsList, GetState, PutState, hne] using hl

/-- C12, as the specification states it, fails: the state after `Init` and
`createUFA` with the number UFA- followed by the byte 0xFF, which is not
well-formed UTF-8, role SELLER and a valid payload is reachable; `json.Marshal`
writes the byte as the escape of U+FFFD, so the Master Index lists UFA- followed
by the three bytes of U+FFFD, and nothing is stored under that number: the
record is under the number as given. -/
theorem master_index_lists_rewritten_number :
    Reachable goLib exCreatedByte ∧
    validateNewUFA goLib "SELLER" exPayload = "" ∧
    ¬ Utf8 "UFA-\xff" ∧
    exCreatedByte ALL_ELEMENENTS = some "[\"UFA-\\ufffd\"]" ∧
    getAllRecordsList goLib exCreatedByte = some ["UFA-\xef\xbf\xbd"] ∧
    exCreatedByte "UFA-\xef\xbf\xbd" = none ∧
    exCreatedByte "UFA-\xff" = some exPayload :=
  ⟨Reachable.create (Init (fun _ => none)) "UFA-\xff" "SELLER" exPayload (Reachable.init _),
    by decide!, by decide!, by decide!, by decide!, by decide!, by decide!⟩

/-- C12, amended. For a standard library with the laws `JsonLaws` and `ListLaws`,
in every world state reachable from the state `Init` produces through calls of
`updateUFA` and calls of `createUFA` whose agreement number is well-formed UTF-8,
every agreement number that the Master Index lists has a value stored under it. -/
theorem master_index_sound (L : GoLib) (hL : JsonLaws L) (hL2 : ListLaws L) (stub : Store)
    (h : ReachableUtf8 L stub) : IndexSound L stub := by
  induction h with
  | init stub0 =>
    intro l hl n hn
    have hl2 : l = [] := by
      simpa [getAllRecordsList, GetState, Init, PutState, input, hL.list_empty] using hl.symm
    subst hl2
    cases hn
  | create stub0 N who payload _ hutf ih =>
    exact IndexSound_createUFA L hL hL2 stub0 N who payload ih hutf
  | update stub0 stub1 N payload _ hu ih => exact IndexSound_updateUFA L hL stub0 stub1 N payload ih hu

/-- C12, amended, at a concrete input: the runnable library has the laws, the
world state after `Init` and the creation of UFA-1, a number of well-formed
UTF-8, is reachable, its Master Index lists UFA-1, and UFA-1 is stored. -/
theorem master_index_sound_witness :
    JsonLaws goLib ∧ ListLaws goLib ∧ ReachableUtf8 goLib exCreated ∧
    getAllRecordsList goLib exCreated = some ["UFA-1"] ∧ IndexSound goLib exCreated :=
  have hr : ReachableUtf8 goLib exCreated :=
    ReachableUtf8.create (Init (fun _ => none)) "UFA-1" "SELLER" exPayload
      (ReachableUtf8.init _) (by decide!)
  ⟨goLib_laws, goLib_listLaws, hr, by decide!,
    master_index_sound goLib goLib_laws goLib_listLaws exCreated hr⟩

end Ufatool
